import Mathlib

/-!
Verification development for the Cubotone cube-robot controller.

The Python sources embedded here are `Cubotone_moves.py` (solver-move to
robot-move translation) and the color-classification part of `Cubotone.py`
(`CIEDE2000`, `rgb2lab`, `cube_colors_interpreted`,
`retrieve_cube_color_order`, `cube_colors_interpreted_HSV`).

Python strings are modelled as `List Char`; Python `str.find`, slicing,
`in`, and list utilities are modelled by the `py*` helpers below with
Python's exact semantics (including `find` returning `-1` and negative
slice indices).  Fallible Python code (uncaught `ValueError`, `NameError`,
`IndexError`) is modelled with `Option`: `none` means the Python code
raises.  Floating point arithmetic is modelled over `ℝ`.
-/

namespace Cubotone

/-- First index (from `k`) at which `needle` occurs as a contiguous
substring of the remaining haystack; `none` if it never occurs. -/
def subFindAux : List Char → List Char → Nat → Option Nat
  | [], needle, k => if needle = [] then some k else none
  | a :: rest, needle, k =>
    if needle.isPrefixOf (a :: rest) then some k else subFindAux rest needle (k + 1)

/-- Python `haystack.find(needle)`: first index of the substring, else `-1`. -/
def pyFind (hay needle : List Char) : Int :=
  match subFindAux hay needle 0 with
  | some k => (k : Int)
  | none => -1

/-- Python `needle in haystack` (substring containment). -/
def pySub (needle hay : List Char) : Bool :=
  (subFindAux hay needle 0).isSome

/-- Python `s[i:]`, including negative-index semantics. -/
def pySliceFrom (l : List Char) (i : Int) : List Char :=
  if i < 0 then l.drop (l.length - (-i).toNat) else l.drop i.toNat

/-- Python `s[i]` for an integer index (negative indices count from the
end); `none` models an `IndexError`. -/
def pyIndex (l : List Char) (i : Int) : Option Char :=
  if 0 ≤ i ∧ i < l.length then l.get? i.toNat
  else if -(l.length : Int) ≤ i ∧ i < 0 then l.get? (l.length + i).toNat
  else none

/-- Python `min` over a list of integers (first argument wins ties;
the empty list, which raises in Python, yields a junk `0`). -/
def pyMinInt : List Int → Int
  | [] => 0
  | x :: xs => xs.foldl min x

/-- Python `int(s)` restricted to the strings this program slices out:
a single decimal digit parses, everything else raises (`none`). -/
def pyInt : List Char → Option Int
  | [c] => if c.isDigit then some ((c.toNat - '0'.toNat : Nat) : Int) else none
  | _ => none

end Cubotone

namespace Cubotone

/-- The 72-entry spin table `spinArr` of `Cubotone_moves.py`:
(Current down+front, Next down+down', signed quarter turns). -/
def spinArr : List (List Char × List Char × Int) :=
  [(['D','F'], ['D','L'],  1), (['D','F'], ['D','R'], -1), (['D','F'], ['D','B'],  2),
   (['F','U'], ['F','L'],  1), (['F','U'], ['F','R'], -1), (['F','U'], ['F','D'],  2),
   (['U','B'], ['U','L'],  1), (['U','B'], ['U','R'], -1), (['U','B'], ['U','F'],  2),
   (['B','D'], ['B','L'],  1), (['B','D'], ['B','R'], -1), (['B','D'], ['B','U'],  2),
   (['D','L'], ['D','B'],  1), (['D','L'], ['D','F'], -1), (['D','L'], ['D','R'],  2),
   (['D','R'], ['D','F'],  1), (['D','R'], ['D','B'], -1), (['D','R'], ['D','L'],  2),
   (['D','B'], ['D','R'],  1), (['D','B'], ['D','L'], -1), (['D','B'], ['D','F'],  2),
   (['F','L'], ['F','D'],  1), (['F','L'], ['F','U'], -1), (['F','L'], ['F','R'],  2),
   (['F','R'], ['F','U'],  1), (['F','R'], ['F','D'], -1), (['F','R'], ['F','L'],  2),
   (['F','D'], ['F','R'],  1), (['F','D'], ['F','L'], -1), (['F','D'], ['F','U'],  2),
   (['B','L'], ['B','U'],  1), (['B','L'], ['B','D'], -1), (['B','L'], ['B','R'],  2),
   (['B','U'], ['B','R'],  1), (['B','U'], ['B','L'], -1), (['B','U'], ['B','D'],  2),
   (['B','R'], ['B','D'],  1), (['B','R'], ['B','U'], -1), (['B','R'], ['B','L'],  2),
   (['U','L'], ['U','F'],  1), (['U','L'], ['U','B'], -1), (['U','L'], ['U','R'],  2),
   (['U','R'], ['U','B'],  1), (['U','R'], ['U','F'], -1), (['U','R'], ['U','L'],  2),
   (['U','F'], ['U','R'],  1), (['U','F'], ['U','L'], -1), (['U','F'], ['U','B'],  2),
   (['L','U'], ['L','B'],  1), (['L','U'], ['L','F'], -1), (['L','U'], ['L','D'],  2),
   (['L','B'], ['L','D'],  1), (['L','B'], ['L','U'], -1), (['L','B'], ['L','F'],  2),
   (['L','F'], ['L','U'],  1), (['L','F'], ['L','D'], -1), (['L','F'], ['L','B'],  2),
   (['L','D'], ['L','F'],  1), (['L','D'], ['L','B'], -1), (['L','D'], ['L','U'],  2),
   (['R','U'], ['R','F'],  1), (['R','U'], ['R','B'], -1), (['R','U'], ['R','D'],  2),
   (['R','F'], ['R','D'],  1), (['R','F'], ['R','U'], -1), (['R','F'], ['R','B'],  2),
   (['R','B'], ['R','U'],  1), (['R','B'], ['R','D'], -1), (['R','B'], ['R','F'],  2),
   (['R','D'], ['R','B'],  1), (['R','D'], ['R','F'], -1), (['R','D'], ['R','U'],  2)]

/-- The six flip sequences `flip_seq` of `Cubotone_moves.py`. -/
def flip_seq : List (List Char) :=
  [['D','F','U','B','D','F','U','B'],
   ['D','L','U','R','D','L','U','R'],
   ['D','R','U','L','D','R','U','L'],
   ['D','B','U','F','D','B','U','F'],
   ['F','L','B','R','F','L','B','R'],
   ['F','R','B','L','F','R','B','L']]

/-- `spin_func` of `Cubotone_moves.py`: first matching table row, a failed
lookup (the `except` branch) yields `0`. -/
def spin_func (current next_orient : List Char) : Int :=
  match spinArr.find? (fun e => e.1 = current ∧ e.2.1 = next_orient) with
  | some e => e.2.2
  | none => 0

/-- `flips_func` of `Cubotone_moves.py`.  Returns the flip count and the
new front face; `none` models the `NameError`/`IndexError` paths (unbound
`c_flip_seq`, out-of-range character index). -/
def flips_func (c_bot n_bot c_orient : List Char)
    (flip_sequences : List (List Char)) : Option (Int × Char) :=
  let c_flip_seq : Option (List Char) := flip_sequences.find? (fun s => pySub c_orient s)
  let n_flip_seq : Option (List Char) :=
    if c_bot ≠ n_bot then
      let results : List Int := flip_sequences.map (fun s =>
        if pySub c_bot s ∧ pySub n_bot s then
          pyFind (pySliceFrom s (pyFind s c_bot)) n_bot
        else 10)
      let min_result := pyMinInt results
      if min_result ≠ 2 then
        -- the source indexes the global `flip_seq` here, not the parameter
        some (flip_seq.getD (results.indexOf min_result) [])
      else c_flip_seq
    else c_flip_seq
  match n_flip_seq with
  | none => none
  | some nfs =>
    match pyIndex nfs (pyFind nfs n_bot + 1) with
    | none => none
    | some n_front => some (pyFind (pySliceFrom nfs (pyFind nfs c_bot)) n_bot, n_front)

/-- One robot move, the triple rendered by the source as
`'S'+str(spin)+'F'+str(flips)+'R'+str(rotations)`. -/
abbrev RobotMove := Int × Int × Int

/-- The per-move loop body of `robot_moves`, iterated `moves` times.
State: remaining solution string, current bottom / front (as Python
strings), accumulated move list and total move count.  `none` models the
uncaught `ValueError` of `int(solution[1:2])` on malformed input. -/
def robotLoop : Nat → List Char → List Char → List Char →
    List RobotMove → Int → Option (List RobotMove × Int)
  | 0, _, _, _, acc, tot => some (acc, tot)
  | m + 1, sol, c_bottom, c_front, acc, tot =>
    let c_orient := c_bottom ++ c_front
    let n_bottom : List Char :=
      match sol with
      | [] => ['E','r','r','o','r']   -- n_bottom_func's except branch
      | c :: _ => [c]
    let c_n_bottom := c_bottom ++ n_bottom
    let spin := spin_func c_orient c_n_bottom
    match flips_func c_bottom n_bottom c_orient flip_seq with
    | none => none
    | some (flips, n_front) =>
      match pyInt ((sol.drop 1).take 1) with
      | none => none
      | some rotations =>
        let rotations := if rotations = 3 then -1 else rotations
        let acc := acc ++ [(spin, flips, rotations)]
        let spin' : Int := if spin ≠ 0 then 1 else spin
        let rotations' : Int := if rotations ≠ 0 then 1 else rotations
        robotLoop m (sol.drop 3) n_bottom [n_front] acc
          (tot + spin' + flips + rotations')

/-- `robot_moves` of `Cubotone_moves.py`.  The dict `robot` is modelled as
the list of emitted `(spin, flips, rotations)` triples in key order
(keys are `1..moves` in the source).  `moves = int(round(len/3, 0))`
equals `(len + 1) / 3` in natural division: `n/3` as a double never lands
on an exact half-integer tie. -/
def robot_moves (solution solution_Text : List Char) : Option (List RobotMove × Int) :=
  if solution_Text ≠ ['E','r','r','o','r'] then
    robotLoop ((solution.length + 1) / 3) solution ['R'] ['B'] [] 0
  else
    some ([], 0)

end Cubotone

namespace Cubotone

/-! ### Spec-side vocabulary for the move translator -/

/-- The six cube faces. -/
def faceList : List Char := ['U', 'R', 'F', 'D', 'L', 'B']

/-- The opposite face. -/
def opposite : Char → Char
  | 'U' => 'D' | 'D' => 'U' | 'R' => 'L' | 'L' => 'R' | 'F' => 'B' | 'B' => 'F'
  | c => c

/-- A valid cube orientation: two distinct, non-opposite faces
(down, front); there are 24 such pairs. -/
def validPair (p : Char × Char) : Bool :=
  faceList.contains p.1 && faceList.contains p.2 && p.2 != p.1 && p.2 != opposite p.1

/-- The 24 valid (down, front) pairs. -/
def validPairs : List (Char × Char) :=
  (faceList.flatMap (fun a => faceList.map (fun b => (a, b)))).filter validPair

/-- Flip sequences containing both faces (spec: "the flip sequences
containing both"). -/
def seqsWithBoth (d n : Char) : List (List Char) :=
  flip_seq.filter (fun s => pySub [d] s ∧ pySub [n] s)

/-- Forward distance along a flip sequence from the first occurrence of
`d` to the next occurrence of `n`. -/
def fwdDist (s : List Char) (d n : Char) : Int :=
  pyFind (pySliceFrom s (pyFind s [d])) [n]

/-- Spec: minimum forward cyclic distance from `d` to `n` over the flip
sequences containing both. -/
def minFlips (d n : Char) : Int :=
  pyMinInt ((seqsWithBoth d n).map (fun s => fwdDist s d n))

/-- The flip sequence to which the current orientation belongs. -/
def ownSeq (d f : Char) : Option (List Char) :=
  flip_seq.find? (fun s => pySub [d, f] s)

/-- The face immediately following `n` in sequence `s`. -/
def succIn (s : List Char) (n : Char) : Char :=
  s.getD (s.findIdx (· = n) + 1) 'X'

end Cubotone

namespace Cubotone

/-- C2: for every orientation in a flip sequence and every target face,
`flips_func` succeeds, returns the minimum forward distance (always 0, 1
or 2), prefers the current sequence when the target is the opposite face,
and the returned front follows the target in a minimizing sequence. -/
theorem flips_func_matches_spec : ∀ d ∈ faceList, ∀ f ∈ faceList, ∀ n ∈ faceList,
    flip_seq.any (fun s => pySub [d, f] s) = true →
    (flips_func [d] [n] [d, f] flip_seq).isSome = true ∧
    ((flips_func [d] [n] [d, f] flip_seq).getD (0, 'X')).1 = minFlips d n ∧
    (minFlips d n = 0 ∨ minFlips d n = 1 ∨ minFlips d n = 2) ∧
    (minFlips d n = 2 →
      ((flips_func [d] [n] [d, f] flip_seq).getD (0, 'X')).2 =
        succIn ((ownSeq d f).getD []) n) ∧
    (∃ s ∈ seqsWithBoth d n, fwdDist s d n = minFlips d n ∧
      ((flips_func [d] [n] [d, f] flip_seq).getD (0, 'X')).2 = succIn s n) := by
  decide

/-- Witness for C2 at the opposite-face case `d = 'D'`, `f = 'F'`,
`n = 'U'`: two flips, front taken from the current sequence. -/
theorem flips_func_matches_spec_witness :
    (flips_func ['D'] ['U'] ['D', 'F'] flip_seq).isSome = true ∧
    ((flips_func ['D'] ['U'] ['D', 'F'] flip_seq).getD (0, 'X')).1 = minFlips 'D' 'U' ∧
    (minFlips 'D' 'U' = 0 ∨ minFlips 'D' 'U' = 1 ∨ minFlips 'D' 'U' = 2) ∧
    (minFlips 'D' 'U' = 2 →
      ((flips_func ['D'] ['U'] ['D', 'F'] flip_seq).getD (0, 'X')).2 =
        succIn ((ownSeq 'D' 'F').getD []) 'U') ∧
    (∃ s ∈ seqsWithBoth 'D' 'U', fwdDist s 'D' 'U' = minFlips 'D' 'U' ∧
      ((flips_func ['D'] ['U'] ['D', 'F'] flip_seq).getD (0, 'X')).2 = succIn s 'U') :=
  flips_func_matches_spec 'D' (by decide) 'F' (by decide) 'U' (by decide) (by decide)

/-- C3: `spin_func` returns the stored spin for a key of the 72-entry
table, and `0` for any pair of strings not in the table. -/
theorem spin_func_matches_table :
    (∀ c n v, (c, n, v) ∈ spinArr → spin_func c n = v) ∧
    (∀ c n, (∀ v, (c, n, v) ∉ spinArr) → spin_func c n = 0) := by
  constructor
  · intro c n v hmem
    have hnd : (spinArr.map (fun e => (e.1, e.2.1))).Nodup := by decide
    have hsome : (spinArr.find? (fun e => e.1 = c ∧ e.2.1 = n)).isSome := by
      rw [List.find?_isSome]
      exact ⟨(c, n, v), hmem, by simp⟩
    obtain ⟨e, he⟩ := Option.isSome_iff_exists.mp hsome
    have hemem : e ∈ spinArr := List.mem_of_find?_eq_some he
    have hekey : e.1 = c ∧ e.2.1 = n := by
      have := List.find?_some he
      simpa using this
    have : e = (c, n, v) := by
      refine List.inj_on_of_nodup_map hnd hemem hmem ?_
      simp [hekey.1, hekey.2]
    unfold spin_func
    rw [he, this]
  · intro c n hnone
    have : spinArr.find? (fun e => e.1 = c ∧ e.2.1 = n) = none := by
      rw [List.find?_eq_none]
      intro e hemem hkey
      have hekey : e.1 = c ∧ e.2.1 = n := by simpa using hkey
      exact hnone e.2.2 (by
        have : (c, n, e.2.2) = e := by
          obtain ⟨e1, e2, e3⟩ := e
          simp only [Prod.mk.injEq]
          exact ⟨hekey.1.symm, hekey.2.symm, trivial⟩
        rw [this]; exact hemem)
    unfold spin_func
    rw [this]

/-- Witness for C3: a present key returns its spin, an absent key
returns 0. -/
theorem spin_func_matches_table_witness :
    spin_func ['D', 'F'] ['D', 'L'] = 1 ∧ spin_func ['X'] ['Y'] = 0 :=
  ⟨spin_func_matches_table.1 ['D', 'F'] ['D', 'L'] 1 (by decide),
   spin_func_matches_table.2 ['X'] ['Y'] (fun v hv => by simp [spinArr] at hv)⟩

/-- C9: the empty solution yields an empty move list and zero count, and
the `'Error'` sentinel short-circuits for every solution string. -/
theorem robot_moves_empty_or_error :
    (∀ t, t ≠ ['E','r','r','o','r'] → robot_moves [] t = some ([], 0)) ∧
    (∀ s, robot_moves s ['E','r','r','o','r'] = some ([], 0)) := by
  constructor
  · intro t ht
    simp [robot_moves, ht, robotLoop]
  · intro s
    simp [robot_moves]

/-- Witness for C9. -/
theorem robot_moves_empty_or_error_witness :
    robot_moves [] ['x'] = some ([], 0) ∧
    robot_moves ['U', '1'] ['E','r','r','o','r'] = some ([], 0) :=
  ⟨robot_moves_empty_or_error.1 ['x'] (by decide),
   robot_moves_empty_or_error.2 ['U', '1']⟩

end Cubotone

namespace Cubotone

/-- A well-formed solver token: a face letter and a turn digit 1–3. -/
def wfTok (t : Char × Char) : Bool :=
  faceList.contains t.1 && (t.2 = '1' || t.2 = '2' || t.2 = '3')

/-- A well-formed solver solution, as a token list. -/
def wfToks (l : List (Char × Char)) : Bool := l.all wfTok

/-- Render a token list as the solver's space-separated solution string
(e.g. `[('U','2'),('R','1')] ↦ "U2 R1"`). -/
def render : List (Char × Char) → List Char
  | [] => []
  | [(f, d)] => [f, d]
  | (f, d) :: rest => f :: d :: ' ' :: render rest

/-- The orientation update performed by one `robot_moves` iteration:
the token's face becomes the bottom, `flips_func`'s second component the
front. -/
def orientStep (p : Char × Char) (n : Char) : Char × Char :=
  (n, ((flips_func [p.1] [n] [p.1, p.2] flip_seq).getD (0, 'X')).2)

/-- The successive (down, front) orientations `robot_moves` maintains,
starting from the hardcoded `('R', 'B')` scan-end orientation. -/
def orientTrace (faces : List Char) : List (Char × Char) :=
  List.scanl orientStep ('R', 'B') faces

/-- Specification-level mirror of the `robot_moves` loop on a token
list: emitted (spin, flips, rotations) triples, total move count, and
final orientation. -/
def specRun : List (Char × Char) → (Char × Char) → List RobotMove × Int × (Char × Char)
  | [], st => ([], 0, st)
  | (fc, d) :: rest, st =>
    let spin := spin_func [st.1, st.2] [st.1, fc]
    let fr := (flips_func [st.1] [fc] [st.1, st.2] flip_seq).getD (0, 'X')
    let rot : Int := if d = '3' then -1 else ((d.toNat - '0'.toNat : Nat) : Int)
    let r := specRun rest (orientStep st fc)
    ((spin, fr.1, rot) :: r.1,
     ((if spin ≠ 0 then 1 else spin) + fr.1 + (if rot ≠ 0 then 1 else rot)) + r.2.1,
     r.2.2)

/-- On every valid orientation and face, `flips_func` succeeds and the
updated orientation is again valid. -/
theorem flips_step_ok : ∀ p ∈ validPairs, ∀ n ∈ faceList,
    (flips_func [p.1] [n] [p.1, p.2] flip_seq).isSome = true ∧
    validPair (n, ((flips_func [p.1] [n] [p.1, p.2] flip_seq).getD (0, 'X')).2) = true := by
  decide

/-- `validPair` membership coincides with membership in the 24-pair
enumeration. -/
theorem validPair_mem (p : Char × Char) : validPair p = true ↔ p ∈ validPairs := by
  constructor
  · intro h
    have h' := h
    unfold validPair at h'
    simp only [Bool.and_eq_true] at h'
    have h1 : p.1 ∈ faceList := by simpa using h'.1.1.1
    have h2 : p.2 ∈ faceList := by simpa using h'.1.1.2
    unfold validPairs
    rw [List.mem_filter]
    refine ⟨?_, h⟩
    rw [List.mem_flatMap]
    exact ⟨p.1, h1, by rw [List.mem_map]; exact ⟨p.2, h2, rfl⟩⟩
  · intro h
    unfold validPairs at h
    exact (List.mem_filter.mp h).2

/-- The `moves = int(round(len(solution)/3, 0))` count of `robot_moves`
equals the token count on rendered solutions. -/
theorem render_moves (toks : List (Char × Char)) :
    ((render toks).length + 1) / 3 = toks.length := by
  induction toks with
  | nil => rfl
  | cons t rest ih =>
    obtain ⟨f, d⟩ := t
    cases rest with
    | nil => norm_num [render]
    | cons t' rest' =>
      show ((f :: d :: ' ' :: render (t' :: rest')).length + 1) / 3 = _
      have h2 : (f :: d :: ' ' :: render (t' :: rest')).length + 1 =
          ((render (t' :: rest')).length + 1) + 3 := by
        simp only [List.length_cons]
      rw [h2, Nat.add_div_right _ (by norm_num), ih]
      simp only [List.length_cons]


/-- One unfolding of the `robot_moves` loop on a token at the head of the
solution string. -/
theorem robotLoop_step (m : Nat) (fc d : Char) (tail : List Char) (b f : Char)
    (acc : List RobotMove) (tot : Int) (fl : Int) (nf : Char) (rv : Int)
    (hflips : flips_func [b] [fc] [b, f] flip_seq = some (fl, nf))
    (hd : pyInt [d] = some rv) :
    robotLoop (m + 1) (fc :: d :: tail) [b] [f] acc tot =
      robotLoop m (tail.drop 1) [fc] [nf]
        (acc ++ [(spin_func [b, f] [b, fc], fl, if rv = 3 then -1 else rv)])
        (tot + (if spin_func [b, f] [b, fc] ≠ 0 then 1 else spin_func [b, f] [b, fc]) + fl
             + (if (if rv = 3 then -1 else rv) ≠ 0 then 1 else (if rv = 3 then -1 else rv))) := by
  show (match flips_func [b] ([fc]) ([b] ++ [f]) flip_seq with
    | none => none
    | some (flips, n_front) => _ : Option (List RobotMove × Int)) = _
  rw [show [b] ++ [f] = [b, f] from rfl]
  rw [hflips]
  show (match pyInt [d] with | none => none | some rotations => _ : Option (List RobotMove × Int)) = _
  rw [hd]
  rfl

/-- The loop of `robot_moves` agrees with `specRun` on well-formed token
lists started from a valid orientation. -/
theorem robotLoop_eq_specRun : ∀ toks : List (Char × Char), ∀ b f : Char,
    ∀ acc : List RobotMove, ∀ tot : Int,
    wfToks toks = true → validPair (b, f) = true →
    robotLoop toks.length (render toks) [b] [f] acc tot =
      some (acc ++ (specRun toks (b, f)).1, tot + (specRun toks (b, f)).2.1) := by
  intro toks
  induction toks with
  | nil => intro b f acc tot _ _; simp [robotLoop, specRun]
  | cons t rest ih =>
    intro b f acc tot hwf hvp
    obtain ⟨fc, d⟩ := t
    have hwf1 : wfTok (fc, d) = true := by
      have h := hwf; unfold wfToks at h
      rw [List.all_cons, Bool.and_eq_true] at h
      exact h.1
    have hwfr : wfToks rest = true := by
      have h := hwf; unfold wfToks at h
      rw [List.all_cons, Bool.and_eq_true] at h
      exact h.2
    have hfc : fc ∈ faceList := by
      unfold wfTok at hwf1
      rw [Bool.and_eq_true] at hwf1
      simpa using hwf1.1
    have hstep := flips_step_ok (b, f) ((validPair_mem (b, f)).mp hvp) fc hfc
    obtain ⟨fl, nf, hflips⟩ : ∃ fl nf,
        flips_func [b] [fc] [b, f] flip_seq = some (fl, nf) := by
      rcases hopt : flips_func [b] [fc] [b, f] flip_seq with _ | ⟨fl, nf⟩
      · rw [hopt] at hstep; simp at hstep
      · exact ⟨fl, nf, rfl⟩
    have hnf : ((flips_func [b] [fc] [b, f] flip_seq).getD (0, 'X')).2 = nf := by
      rw [hflips]; rfl
    have hvp' : validPair (fc, nf) = true := by rw [← hnf]; exact hstep.2
    have hdig : d = '1' ∨ d = '2' ∨ d = '3' := by
      unfold wfTok at hwf1
      rw [Bool.and_eq_true, Bool.or_eq_true, Bool.or_eq_true] at hwf1
      rcases hwf1.2 with (h | h) | h
      · exact Or.inl (by simpa using h)
      · exact Or.inr (Or.inl (by simpa using h))
      · exact Or.inr (Or.inr (by simpa using h))
    have hdigit : pyInt [d] = some ((d.toNat - '0'.toNat : Nat) : Int) := by
      rcases hdig with h | h | h <;> subst h <;> rfl
    have hrot : (if ((d.toNat - '0'.toNat : Nat) : Int) = 3 then (-1 : Int)
        else ((d.toNat - '0'.toNat : Nat) : Int)) =
        (if d = '3' then (-1 : Int) else ((d.toNat - '0'.toNat : Nat) : Int)) := by
      rcases hdig with h | h | h <;> subst h <;> rfl
    have hos : orientStep (b, f) fc = (fc, nf) := by
      unfold orientStep
      simp only [hnf]
    cases rest with
    | nil =>
      show robotLoop (0 + 1) (fc :: d :: []) [b] [f] acc tot = _
      rw [robotLoop_step 0 fc d [] b f acc tot fl nf _ hflips hdigit]
      simp only [robotLoop, specRun, hos, hflips, Option.getD_some, hrot]
      refine congrArg some (Prod.ext rfl ?_)
      show _ = _ + (_ + (0 : Int))
      ring
    | cons t' rest' =>
      show robotLoop ((t' :: rest').length + 1)
          (fc :: d :: ' ' :: render (t' :: rest')) [b] [f] acc tot = _
      rw [robotLoop_step _ fc d (' ' :: render (t' :: rest')) b f acc tot fl nf _ hflips hdigit]
      rw [show (' ' :: render (t' :: rest')).drop 1 = render (t' :: rest') from rfl]
      rw [ih fc nf _ _ hwfr hvp']
      show some _ = some (acc ++ (specRun ((fc, d) :: t' :: rest') (b, f)).1,
        tot + (specRun ((fc, d) :: t' :: rest') (b, f)).2.1)
      simp only [specRun, hos, hflips, Option.getD_some, hrot]
      rw [List.append_assoc]
      refine congrArg some (Prod.ext ?_ ?_)
      · rfl
      · show _ = _
        ring

/-- The rotation components emitted by the loop are the token digits with
`3 ↦ -1`. -/
theorem specRun_rot_map : ∀ toks : List (Char × Char), ∀ st : Char × Char,
    (specRun toks st).1.map (fun m => m.2.2) =
      toks.map (fun p => if p.2 = '3' then (-1 : Int)
        else ((p.2.toNat - '0'.toNat : Nat) : Int)) := by
  intro toks
  induction toks with
  | nil => intro st; rfl
  | cons t rest ih =>
    intro st
    obtain ⟨fc, d⟩ := t
    simp only [specRun, List.map_cons]
    rw [ih]

/-- C4: on well-formed solutions every emitted rotate-count is the
token's trailing digit with `3` remapped to `-1`; in particular the
single-token solution `"U1"` yields exactly one move `S1F1R1` (three
robot movements), with rotate-count `1` and not `-1`. -/
theorem robot_moves_rotation_counts :
    (∀ toks t, wfToks toks = true → t ≠ ['E','r','r','o','r'] →
      ∃ res, robot_moves (render toks) t = some res ∧
        res.1.map (fun m => m.2.2) =
          toks.map (fun p => if p.2 = '3' then (-1 : Int)
            else ((p.2.toNat - '0'.toNat : Nat) : Int))) ∧
    robot_moves ['U', '1'] [] = some ([(1, 1, 1)], 3) := by
  constructor
  · intro toks t hwf ht
    refine ⟨((specRun toks ('R', 'B')).1, (specRun toks ('R', 'B')).2.1), ?_, ?_⟩
    · unfold robot_moves
      rw [if_pos ht, render_moves]
      rw [robotLoop_eq_specRun toks 'R' 'B' [] 0 hwf (by decide)]
      simp
    · exact specRun_rot_map toks ('R', 'B')
  · decide

/-- Witness for C4: the single CCW token `"F3"` emits rotate-count `-1`. -/
theorem robot_moves_rotation_counts_witness :
    ∃ res, robot_moves (render [('F', '3')]) [] = some res ∧
      res.1.map (fun m => m.2.2) =
        [('F', '3')].map (fun p => if p.2 = '3' then (-1 : Int)
          else ((p.2.toNat - '0'.toNat : Nat) : Int)) :=
  robot_moves_rotation_counts.1 [('F', '3')] [] (by decide) (by decide)

/-- Every orientation reached from a valid one through the per-move
update is valid. -/
theorem orientTrace_valid : ∀ faces : List Char, ∀ st : Char × Char,
    (∀ x ∈ faces, x ∈ faceList) → validPair st = true →
    ∀ p ∈ List.scanl orientStep st faces, validPair p = true := by
  intro faces
  induction faces with
  | nil =>
    intro st _ hst p hp
    simp only [List.scanl_nil, List.mem_singleton] at hp
    rwa [hp]
  | cons x xs ih =>
    intro st hmem hst p hp
    rw [List.scanl_cons] at hp
    rcases List.mem_cons.mp hp with h | h
    · rwa [h]
    · have hx : x ∈ faceList := hmem x (List.mem_cons_self x xs)
      have hnext := (flips_step_ok st ((validPair_mem st).mp hst) x hx).2
      exact ih (orientStep st x) (fun y hy => hmem y (List.mem_cons_of_mem x hy))
        hnext p h

/-- C5: on any well-formed solution the (down, front) pair maintained by
`robot_moves` — the `orientTrace` from the hardcoded `('R','B')` start —
stays one of the 24 valid face pairs at every step, and the translation
succeeds. -/
theorem robot_moves_orientation_invariant :
    ∀ toks t, wfToks toks = true → t ≠ ['E','r','r','o','r'] →
      (robot_moves (render toks) t).isSome = true ∧
      ∀ p ∈ orientTrace (toks.map Prod.fst), validPair p = true := by
  intro toks t hwf ht
  constructor
  · unfold robot_moves
    rw [if_pos ht, render_moves]
    rw [robotLoop_eq_specRun toks 'R' 'B' [] 0 hwf (by decide)]
    rfl
  · intro p hp
    refine orientTrace_valid (toks.map Prod.fst) ('R', 'B') ?_ (by decide) p hp
    intro x hx
    rw [List.mem_map] at hx
    obtain ⟨tok, htok, hxeq⟩ := hx
    have : wfTok tok = true := by
      have h := hwf
      unfold wfToks at h
      rw [List.all_eq_true] at h
      exact h tok htok
    unfold wfTok at this
    rw [Bool.and_eq_true] at this
    rw [← hxeq]
    simpa using this.1

/-- Witness for C5 on the two-token solution `"U1 R2"`. -/
theorem robot_moves_orientation_invariant_witness :
    (robot_moves (render [('U', '1'), ('R', '2')]) []).isSome = true ∧
    ∀ p ∈ orientTrace ([('U', '1'), ('R', '2')].map Prod.fst), validPair p = true :=
  robot_moves_orientation_invariant [('U', '1'), ('R', '2')] [] (by decide) (by decide)

end Cubotone

namespace Cubotone

/-! ### The HSV-based color analysis of `Cubotone.py`

`retrieve_cube_color_order` and `cube_colors_interpreted_HSV` work on the
integer Hue / Saturation / Value triples obtained from OpenCV, so they are
modelled over `Int`.  Python dicts keyed `0..53` are modelled as total
functions (`Nat → Int`) when no key is ever deleted, and as association
lists in insertion order when keys are deleted (`del Hue[facelet]`). -/

/-- The six color names the classifier uses (the insertion order of the
`cube_ref_colors` dict is white, red, green, yellow, orange, blue). -/
inductive ColName | white | red | green | yellow | orange | blue
  deriving DecidableEq, Repr

/-- One cell of Python's `cube_color_sequence` list: initially the center
facelet numbers, then (partially) replaced by color-name strings. -/
inductive CCSVal
  | num (n : Nat)
  | col (c : ColName)
  deriving DecidableEq, Repr

/-- Python `max` over a list of integers (first maximum wins;
empty list yields a junk `0`). -/
def pyMaxInt : List Int → Int
  | [] => 0
  | x :: xs => xs.foldl max x

/-- The cube's six center facelets `[4, 13, 22, 31, 40, 49]`. -/
def centersInit : List Nat := [4, 13, 22, 31, 40, 49]

/-- `white_center`: the center facelet with the maximal V-S value
(`centers[VS_centers.index(max(VS_centers))]`). -/
def whiteCenterOf (VS_value : Nat → Int) : Nat :=
  centersInit.getD ((centersInit.map VS_value).indexOf (pyMaxInt (centersInit.map VS_value))) 0

/-- `yellow_center`: the facelet opposite the white center. -/
def yellowCenterOf (VS_value : Nat → Int) : Nat :=
  if whiteCenterOf VS_value < 27 then whiteCenterOf VS_value + 27
  else whiteCenterOf VS_value - 27

/-- The red/orange hue-filter loop of `retrieve_cube_color_order`: scans
the remaining centers, recording the last facelet satisfying the red
filter and the last satisfying the orange filter (`red_center` /
`orange_center` stay unbound — `none` — if no facelet fires). -/
def redOrangeScan (Hue : Nat → Int) (centers : List Nat) : Option Nat × Option Nat :=
  centers.foldl (fun ro facelet =>
    let opp_facelet := if facelet ≤ 27 then facelet + 27 else facelet - 27
    let Hc := Hue facelet
    let H_opp := Hue opp_facelet
    if (Hc > 150 ∧ H_opp < 30) ∨ (Hc < 30 ∧ H_opp < 30 ∧ Hc < H_opp) ∨
        (Hc > 160 ∧ H_opp > 170 ∧ Hc < H_opp) then
      (some facelet, ro.2)
    else if (Hc < 30 ∧ H_opp > 150) ∨ (Hc < 30 ∧ Hc > H_opp) ∨
        (Hc > 170 ∧ Hc > H_opp) then
      (ro.1, some facelet)
    else ro) (none, none)

/-- `retrieve_cube_color_order` of `Cubotone.py`: determines which color
sits on each scanned side from the center facelets' V-S and Hue values,
returning the color sequence and the `HSV_analysis` flag.  Each
`try: centers.remove(...) except: HSV_analysis=False` pair is modelled by
a membership test (for the unbound-`NameError` case, by matching on the
scan's `Option`). -/
def retrieve_cube_color_order (VS_value Hue : Nat → Int) : List CCSVal × Bool :=
  let white_center := whiteCenterOf VS_value
  let yellow_center := yellowCenterOf VS_value
  let st1 : List Nat × Bool :=
    if white_center ∈ centersInit then (centersInit.erase white_center, true)
    else (centersInit, false)
  let st2 : List Nat × Bool :=
    if yellow_center ∈ st1.1 then (st1.1.erase yellow_center, st1.2) else (st1.1, false)
  let scan := redOrangeScan Hue st2.1
  let st3 : List Nat × Bool :=
    match scan.1 with
    | some rc => if rc ∈ st2.1 then (st2.1.erase rc, st2.2) else (st2.1, false)
    | none => (st2.1, false)
  let st4 : List Nat × Bool :=
    match scan.2 with
    | some oc => if oc ∈ st3.1 then (st3.1.erase oc, st3.2) else (st3.1, false)
    | none => (st3.1, false)
  if st4.2 then
    let Hc := st4.1.map Hue
    let blue_center := st4.1.getD (Hc.indexOf (pyMaxInt Hc)) 0
    let green_center := st4.1.getD (Hc.indexOf (pyMinInt Hc)) 0
    (centersInit.map (fun v =>
      if v = white_center then CCSVal.col ColName.white
      else if v = yellow_center then CCSVal.col ColName.yellow
      else if some v = scan.1 then CCSVal.col ColName.red
      else if some v = scan.2 then CCSVal.col ColName.orange
      else if v = blue_center then CCSVal.col ColName.blue
      else if v = green_center then CCSVal.col ColName.green
      else CCSVal.num v), true)
  else (centersInit.map CCSVal.num, false)

/-- Stable insertion into a value-sorted list (equal values keep their
original relative order, like Python's stable `sorted`). -/
def insertByVal (x : Nat × Int) : List (Nat × Int) → List (Nat × Int)
  | [] => [x]
  | y :: ys => if y.2 < x.2 then y :: insertByVal x ys else x :: y :: ys

/-- Python `sorted(items, key=lambda item: item[1])` (stable, ascending
by value). -/
def sortByVal : List (Nat × Int) → List (Nat × Int)
  | [] => []
  | x :: xs => insertByVal x (sortByVal xs)

/-- Insertion into a key-sorted association list. -/
def insertByKey (x : Nat × CCSVal) : List (Nat × CCSVal) → List (Nat × CCSVal)
  | [] => [x]
  | y :: ys => if y.1 < x.1 then y :: insertByKey x ys else x :: y :: ys

/-- Python `sorted(items, key=lambda item: item[0])`. -/
def sortByKey : List (Nat × CCSVal) → List (Nat × CCSVal)
  | [] => []
  | x :: xs => insertByKey x (sortByKey xs)

/-- The `while HSV_analysis == True:` body of `cube_colors_interpreted_HSV`
(executed at most once: every path ends in `break`).  Returns the
URFDLB-ordered dict, the detected dict and the final `HSV_analysis` flag;
on the failure paths the dicts are returned empty, matching the final
`if HSV_analysis==False` override of the source. -/
def hsvBody (hsv : Nat → Int × Int × Int) (ccs : List CCSVal) :
    List (Nat × ColName) × List (Nat × CCSVal) × Bool :=
  let white_center := centersInit.getD (ccs.indexOf (CCSVal.col ColName.white)) 0
  let colored_centers := centersInit.erase white_center
  let Hw := (hsv white_center).1
  -- VSdelta[i] = V + V - S - abs(3*(H - Hw))
  let VSdelta : List (Nat × Int) := (List.range 54).map (fun i =>
    (i, (hsv i).2.2 + (hsv i).2.2 - (hsv i).2.1 - |3 * ((hsv i).1 - Hw)|))
  let key_ordered_by_VSdelta := (sortByVal VSdelta).map Prod.fst
  let white_facelets_list :=
    key_ordered_by_VSdelta.drop (key_ordered_by_VSdelta.length - 9)
  let hueList0 : List (Nat × Int) := (List.range 54).map (fun i => (i, (hsv i).1))
  -- `del Hue[facelet]` loop with its try/except-break
  let delStep := fun (st : List (Nat × Int) × List (Nat × ColName) × Bool) (f : Nat) =>
    if st.2.2 = false then st
    else if st.1.any (fun p => p.1 = f) then
      (st.1.filter (fun p => p.1 != f), st.2.1 ++ [(f, ColName.white)], true)
    else (st.1, st.2.1, false)
  let st := white_facelets_list.foldl delStep (hueList0, [], true)
  let hueList := st.1
  let white_facelets := st.2.1
  if st.2.2 = false then ([], [], false)
  else
    match colored_centers.mapM (fun x => hueList.lookup x) with
    | none => ([], [], false)   -- the `except` on Hcenters: a colored center was taken as white
    | some Hcenters =>
      let ccs_no_white := ccs.erase (CCSVal.col ColName.white)
      let Hc_red := (hueList.lookup
        (colored_centers.getD (ccs_no_white.indexOf (CCSVal.col ColName.red)) 0)).getD 0
      let Hc_blue := (hueList.lookup
        (colored_centers.getD (ccs_no_white.indexOf (CCSVal.col ColName.blue)) 0)).getD 0
      let red_blue_avg := Int.fdiv (Hc_red + Hc_blue) 2
      let condLow := (hueList.filter (fun p => p.2 > red_blue_avg)).length < 5
      let color_facelets : List (Nat × CCSVal) := hueList.map (fun p =>
        let H := p.2
        let Hdistance : List Int :=
          if condLow then
            Hcenters.map (fun Hc0 =>
              let H' := if H > red_blue_avg then 0 else H
              let Hc' := if Hc0 > red_blue_avg then 0 else Hc0
              min |H' - Hc'| (180 - Hc' + H'))
          else
            Hcenters.map (fun Hc0 => min |H - Hc0| (180 - Hc0 + H))
        (p.1, ccs_no_white.getD (Hdistance.indexOf (pyMinInt Hdistance)) (CCSVal.num 999)))
      let cube_status_detected := sortByKey
        ((white_facelets.map (fun p => (p.1, CCSVal.col p.2))) ++ color_facelets)
      let std_cube_color : List CCSVal :=
        [CCSVal.col ColName.white, CCSVal.col ColName.red, CCSVal.col ColName.green,
         CCSVal.col ColName.yellow, CCSVal.col ColName.orange, CCSVal.col ColName.blue]
      let toName : CCSVal → ColName := fun v =>
        match v with
        | CCSVal.col c => c
        | CCSVal.num _ => ColName.white   -- junk; `std_cube_color` holds only color names
      if ccs ≠ std_cube_color then
        let cube_status_URFDLB : List (Nat × ColName) :=
          (cube_status_detected.map Prod.snd).enum.map (fun p =>
            (p.1, toName (std_cube_color.getD (ccs.indexOf p.2) (CCSVal.col ColName.white))))
        (cube_status_URFDLB, cube_status_detected, true)
      else
        (cube_status_detected.map (fun p => (p.1, toName p.2)), cube_status_detected, true)

/-- `cube_colors_interpreted_HSV` of `Cubotone.py` (its `BGR_detected`
argument is unused by the logic).  Returns
`(cube_status_URFDLB, cube_status_detected, cube_color_sequence,
HSV_analysis)`. -/
def cube_colors_interpreted_HSV (hsv : Nat → Int × Int × Int) :
    List (Nat × ColName) × List (Nat × CCSVal) × List CCSVal × Bool :=
  let VS_value : Nat → Int := fun i => (hsv i).2.2 - (hsv i).2.1
  let Hue : Nat → Int := fun i => (hsv i).1
  let r := retrieve_cube_color_order VS_value Hue
  let body := if r.2 then hsvBody hsv r.1 else ([], [], false)
  if body.2.2 = false then ([], [], r.1, false)
  else (body.1, body.2.1, r.1, true)

end Cubotone

namespace Cubotone

/-- The running maximum of a fold is one of the candidates. -/
theorem pyMaxInt_foldl_mem : ∀ (xs : List Int) (a : Int), xs.foldl max a ∈ a :: xs := by
  intro xs
  induction xs with
  | nil => intro a; simp
  | cons b bs ih =>
    intro a
    have h := ih (max a b)
    rw [List.foldl_cons]
    rcases List.mem_cons.mp h with h' | h'
    · rcases max_choice a b with hm | hm
      · rw [h', hm]; exact List.mem_cons_self _ _
      · rw [h', hm]; exact List.mem_cons_of_mem _ (List.mem_cons_self _ _)
    · exact List.mem_cons_of_mem _ (List.mem_cons_of_mem _ h')

/-- The white center chosen by `retrieve_cube_color_order` is always one
of the six center facelets. -/
theorem whiteCenterOf_mem (VS_value : Nat → Int) : whiteCenterOf VS_value ∈ centersInit := by
  unfold whiteCenterOf
  have hmem : pyMaxInt (centersInit.map VS_value) ∈ centersInit.map VS_value := by
    have := pyMaxInt_foldl_mem [VS_value 13, VS_value 22, VS_value 31, VS_value 40,
      VS_value 49] (VS_value 4)
    simpa [centersInit, pyMaxInt] using this
  have hlt : (centersInit.map VS_value).indexOf (pyMaxInt (centersInit.map VS_value)) <
      (centersInit.map VS_value).length := List.indexOf_lt_length.mpr hmem
  rw [List.length_map] at hlt
  rw [List.getD_eq_get _ _ hlt]
  exact List.get_mem _ _ _

/-- The yellow center (opposite the white one) is always among the five
remaining center facelets. -/
theorem yellowCenterOf_mem (VS_value : Nat → Int) :
    yellowCenterOf VS_value ∈ centersInit.erase (whiteCenterOf VS_value) := by
  have hw := whiteCenterOf_mem VS_value
  simp only [centersInit, List.mem_cons, List.not_mem_nil, or_false] at hw
  unfold yellowCenterOf
  rcases hw with h | h | h | h | h | h <;> rw [h] <;> decide

end Cubotone

namespace Cubotone

/-- C8 (amended): whenever the hue filters of `retrieve_cube_color_order`
identify no red center, or no orange center, among the four non-white,
non-yellow centers (in particular when a duplicated side leaves those
filters unsatisfied), the function returns `HSV_analysis = false` — and,
being a total function, it raises no exception (the `NameError` of the
unbound `red_center`/`orange_center` is caught by the bare `except`). -/
theorem retrieve_flag_false_when_no_red_or_orange :
    ∀ VS_value Hue : Nat → Int,
    ((redOrangeScan Hue ((centersInit.erase (whiteCenterOf VS_value)).erase
        (yellowCenterOf VS_value))).1 = none ∨
     (redOrangeScan Hue ((centersInit.erase (whiteCenterOf VS_value)).erase
        (yellowCenterOf VS_value))).2 = none) →
    (retrieve_cube_color_order VS_value Hue).2 = false := by
  intro VS_value Hue h
  have hw := whiteCenterOf_mem VS_value
  have hy := yellowCenterOf_mem VS_value
  unfold retrieve_cube_color_order
  simp only [if_pos hw, if_pos hy]
  rcases h with h | h
  · rw [h]
    rcases (redOrangeScan Hue ((centersInit.erase (whiteCenterOf VS_value)).erase
        (yellowCenterOf VS_value))).2 with _ | oc
    · simp
    · by_cases hoc : oc ∈ (centersInit.erase (whiteCenterOf VS_value)).erase
          (yellowCenterOf VS_value)
      · simp [hoc]
      · simp [hoc]
  · rw [h]
    rcases hrc : (redOrangeScan Hue ((centersInit.erase (whiteCenterOf VS_value)).erase
        (yellowCenterOf VS_value))).1 with _ | rc
    · simp
    · by_cases hrcm : rc ∈ (centersInit.erase (whiteCenterOf VS_value)).erase
          (yellowCenterOf VS_value)
      · simp [hrcm]
      · simp [hrcm]

/-- Witness for the amended C8: with all hues and V-S values zero neither
the red nor the orange filter fires and the analysis flag is `false`. -/
theorem retrieve_flag_false_when_no_red_or_orange_witness :
    (retrieve_cube_color_order (fun _ => 0) (fun _ => 0)).2 = false :=
  retrieve_flag_false_when_no_red_or_orange (fun _ => 0) (fun _ => 0) (by decide)

/-- 54 HSV triples in which the same side was scanned twice: facelets
18–26 and 45–53 (centers 22 and 49) carry identical colors. -/
def dupHSV : Nat → Int × Int × Int := fun i =>
  if i < 9 then (0, 0, 200)
  else if i < 18 then (175, 100, 100)
  else if i < 27 then (100, 100, 100)
  else if i < 36 then (32, 100, 100)
  else if i < 45 then (5, 100, 100)
  else (100, 100, 100)

/-- Counterexample to C8 as stated: a cube scanned with the same side
twice (centers 22 and 49 identical, so only five distinct colors among
the six centers) for which `cube_colors_interpreted_HSV` nevertheless
returns `HSV_analysis = true`: the duplicate ends up in the blue/green
disambiguation, which never fails. -/
theorem hsv_duplicate_side_not_detected :
    dupHSV 22 = dupHSV 49 ∧
    (cube_colors_interpreted_HSV dupHSV).2.2.2 = true := by
  constructor
  · decide
  · decide

/-- C10: whenever `cube_colors_interpreted_HSV` ends with
`HSV_analysis = false`, both returned facelet-to-color dicts are empty. -/
theorem hsv_failure_returns_empty_dicts : ∀ hsv : Nat → Int × Int × Int,
    (cube_colors_interpreted_HSV hsv).2.2.2 = false →
    (cube_colors_interpreted_HSV hsv).1 = [] ∧
    (cube_colors_interpreted_HSV hsv).2.1 = [] := by
  intro hsv h
  revert h
  unfold cube_colors_interpreted_HSV
  by_cases hb : (if (retrieve_cube_color_order (fun i => (hsv i).2.2 - (hsv i).2.1)
      (fun i => (hsv i).1)).2
      then hsvBody hsv (retrieve_cube_color_order (fun i => (hsv i).2.2 - (hsv i).2.1)
        (fun i => (hsv i).1)).1
      else ([], [], false)).2.2 = false
  · simp only [hb]
    intro _
    simp
  · simp only [hb]
    simp

/-- Witness for C10 at an all-zero HSV input (the analysis fails and
both dicts come back empty). -/
theorem hsv_failure_returns_empty_dicts_witness :
    (cube_colors_interpreted_HSV (fun _ => (0, 0, 0))).1 = [] ∧
    (cube_colors_interpreted_HSV (fun _ => (0, 0, 0))).2.1 = [] :=
  hsv_failure_returns_empty_dicts (fun _ => (0, 0, 0)) (by decide)

end Cubotone

namespace Cubotone

/-! ### The CIEDE2000 color distance of `Cubotone.py` (over `ℝ`)

Python float arithmetic is modelled over the reals; `math.atan2`,
`math.sin`, `math.cos`, `math.exp`, `math.sqrt` and `math.pi` become their
real counterparts.  The branchy sub-expressions of the source (`h1_`/`h2_`
computation, the `dh_` wrap, the `h_ave` four-way branch and the
`h_ave_deg` adjustment) are split into named definitions `hPrime`,
`dhAdj`, `hAve`, `degAdj`, transcribed line by line. -/

open Real

/-- `math.atan2 y x`: the angle of the point `(x, y)`, in `(-π, π]`. -/
noncomputable def atan2 (y x : ℝ) : ℝ :=
  if 0 < x then arctan (y / x)
  else if x < 0 then (if 0 ≤ y then arctan (y / x) + π else arctan (y / x) - π)
  else if 0 < y then π / 2
  else if y < 0 then -(π / 2)
  else 0

/-- The `h1_`/`h2_` computation of `CIEDE2000`:
`0` at the origin, `atan2(b, a)` for `a ≥ 0`, else `atan2(b, a) + 2π`. -/
noncomputable def hPrime (a b : ℝ) : ℝ :=
  if b = 0 ∧ a = 0 then 0
  else if 0 ≤ a then atan2 b a
  else atan2 b a + 2 * π

/-- The `dh_` adjustment of `CIEDE2000`: zero when `C1_*C2_ == 0`, else a
single `±2π` wrap when out of `[-π, π]`. -/
noncomputable def dhAdj (prod d : ℝ) : ℝ :=
  if prod = 0 then 0
  else if d > π then d - 2 * π
  else if d < -π then d + 2 * π
  else d

/-- The `h_ave` four-way branch of `CIEDE2000`. -/
noncomputable def hAve (h1 h2 prod : ℝ) : ℝ :=
  if |h1 - h2| ≤ π ∧ prod ≠ 0 then (h1 + h2) / 2
  else if |h1 - h2| > π ∧ h1 + h2 < 2 * π ∧ prod ≠ 0 then (h1 + h2) / 2 + π
  else if |h1 - h2| > π ∧ h1 + h2 ≥ 2 * π ∧ prod ≠ 0 then (h1 + h2) / 2 - π
  else h1 + h2

/-- The `h_ave_deg` range adjustment of `CIEDE2000`. -/
noncomputable def degAdj (d : ℝ) : ℝ :=
  if d < 0 then d + 360 else if d > 360 then d - 360 else d

/-- `CIEDE2000` of `Cubotone.py` on the six L*a*b* coordinates,
transcribed line by line (`k_L = k_C = k_H = 1`). -/
noncomputable def CIEDE2000core (L1 a1 b1 L2 a2 b2 : ℝ) : ℝ :=
  let C_25_7 : ℝ := 6103515625
  let C1 := Real.sqrt (a1 ^ 2 + b1 ^ 2)
  let C2 := Real.sqrt (a2 ^ 2 + b2 ^ 2)
  let C_ave := (C1 + C2) / 2
  let G := 0.5 * (1 - Real.sqrt (C_ave ^ 7 / (C_ave ^ 7 + C_25_7)))
  let a1' := (1 + G) * a1
  let a2' := (1 + G) * a2
  let C1' := Real.sqrt (a1' ^ 2 + b1 ^ 2)
  let C2' := Real.sqrt (a2' ^ 2 + b2 ^ 2)
  let h1' := hPrime a1' b1
  let h2' := hPrime a2' b2
  let dL' := L2 - L1
  let dC' := C2' - C1'
  let dh' := dhAdj (C1' * C2') (h2' - h1')
  let dH' := 2 * Real.sqrt (C1' * C2') * Real.sin (dh' / 2)
  let L_ave := (L1 + L2) / 2
  let C_ave' := (C1' + C2') / 2
  let h_ave := hAve h1' h2' (C1' * C2')
  let T := 1 - 0.17 * Real.cos (h_ave - π / 6) + 0.24 * Real.cos (2 * h_ave)
      + 0.32 * Real.cos (3 * h_ave + π / 30) - 0.2 * Real.cos (4 * h_ave - 63 * π / 180)
  let h_ave_deg := degAdj (h_ave * 180 / π)
  let dTheta := 30 * Real.exp (-(((h_ave_deg - 275) / 25) ^ 2))
  let R_C := 2 * Real.sqrt (C_ave' ^ 7 / (C_ave' ^ 7 + C_25_7))
  let S_C := 1 + 0.045 * C_ave'
  let S_H := 1 + 0.015 * C_ave' * T
  let Lm50s := (L_ave - 50) ^ 2
  let S_L := 1 + 0.015 * Lm50s / Real.sqrt (20 + Lm50s)
  let R_T := -Real.sin (dTheta * π / 90) * R_C
  let k_L : ℝ := 1
  let k_C : ℝ := 1
  let k_H : ℝ := 1
  let f_L := dL' / k_L / S_L
  let f_C := dC' / k_C / S_C
  let f_H := dH' / k_H / S_H
  Real.sqrt (f_L ^ 2 + f_C ^ 2 + f_H ^ 2 + R_T * f_C * f_H)

/-- `CIEDE2000(Lab_1, Lab_2)` on L*a*b* triples. -/
noncomputable def CIEDE2000 (Lab_1 Lab_2 : ℝ × ℝ × ℝ) : ℝ :=
  CIEDE2000core Lab_1.1 Lab_1.2.1 Lab_1.2.2 Lab_2.1 Lab_2.2.1 Lab_2.2.2

/-- The `dh_` wrap is odd in its angle argument. -/
theorem dhAdj_neg (prod d : ℝ) : dhAdj prod (-d) = -dhAdj prod d := by
  have hpi := Real.pi_pos
  unfold dhAdj
  by_cases hp : prod = 0
  · simp [hp]
  · rw [if_neg hp, if_neg hp]
    by_cases h1 : d > π
    · rw [if_pos h1, if_neg (by linarith), if_pos (by linarith)]
      ring
    · by_cases h2 : d < -π
      · rw [if_neg h1, if_pos h2, if_pos (by linarith)]
        ring
      · rw [if_neg h1, if_neg h2, if_neg (by push_neg at h2 ⊢; linarith),
          if_neg (by push_neg at h1 ⊢; linarith)]

/-- The `dh_` wrap fixes zero. -/
theorem dhAdj_zero (prod : ℝ) : dhAdj prod 0 = 0 := by
  have hpi := Real.pi_pos
  unfold dhAdj
  by_cases hp : prod = 0
  · simp [hp]
  · rw [if_neg hp, if_neg (by linarith), if_neg (by linarith)]

/-- The `h_ave` branch is symmetric in the two hue angles. -/
theorem hAve_comm (h1 h2 prod : ℝ) : hAve h1 h2 prod = hAve h2 h1 prod := by
  unfold hAve
  rw [abs_sub_comm, add_comm h1 h2]

end Cubotone

namespace Cubotone

/-! ### Recovery and range lemmas for the hue angle -/

open Real

theorem atan2_cos_sin (y x : ℝ) :
    Real.sqrt (x ^ 2 + y ^ 2) * Real.cos (atan2 y x) = x ∧
    Real.sqrt (x ^ 2 + y ^ 2) * Real.sin (atan2 y x) = y := by
  unfold atan2
  rcases lt_trichotomy x 0 with hx | hx | hx
  · -- x < 0
    have hx0 : x ≠ 0 := ne_of_lt hx
    have hpos : (0 : ℝ) < x ^ 2 + y ^ 2 := by positivity
    have hSne : Real.sqrt (x ^ 2 + y ^ 2) ≠ 0 := by positivity
    have hS : Real.sqrt (1 + (y / x) ^ 2) = Real.sqrt (x ^ 2 + y ^ 2) / (-x) := by
      rw [show 1 + (y / x) ^ 2 = (x ^ 2 + y ^ 2) / x ^ 2 by field_simp]
      rw [Real.sqrt_div (by positivity), Real.sqrt_sq_eq_abs, abs_of_neg hx]
    rw [if_neg (by linarith), if_pos hx]
    by_cases hy : 0 ≤ y
    · rw [if_pos hy]
      constructor
      · rw [Real.cos_add_pi, Real.cos_arctan, hS]
        field_simp
      · rw [Real.sin_add_pi, Real.sin_arctan, hS]
        field_simp
        ring
    · rw [if_neg hy]
      constructor
      · rw [Real.cos_sub_pi, Real.cos_arctan, hS]
        field_simp
      · rw [Real.sin_sub_pi, Real.sin_arctan, hS]
        field_simp
        ring
  · -- x = 0
    subst hx
    rw [if_neg (lt_irrefl 0), if_neg (lt_irrefl 0)]
    rcases lt_trichotomy y 0 with hy | hy | hy
    · rw [if_neg (by linarith), if_pos hy]
      constructor
      · simp [Real.cos_pi_div_two]
      · rw [Real.sin_neg, Real.sin_pi_div_two]
        rw [show (0:ℝ) ^ 2 + y ^ 2 = y ^ 2 by ring, Real.sqrt_sq_eq_abs, abs_of_neg hy]
        ring
    · subst hy; simp
    · rw [if_pos hy]
      constructor
      · simp [Real.cos_pi_div_two]
      · rw [Real.sin_pi_div_two]
        rw [show (0:ℝ) ^ 2 + y ^ 2 = y ^ 2 by ring, Real.sqrt_sq_eq_abs, abs_of_pos hy]
        ring
  · -- 0 < x
    have hx0 : x ≠ 0 := ne_of_gt hx
    have hpos : (0 : ℝ) < x ^ 2 + y ^ 2 := by positivity
    have hSne : Real.sqrt (x ^ 2 + y ^ 2) ≠ 0 := by positivity
    have hS : Real.sqrt (1 + (y / x) ^ 2) = Real.sqrt (x ^ 2 + y ^ 2) / x := by
      rw [show 1 + (y / x) ^ 2 = (x ^ 2 + y ^ 2) / x ^ 2 by field_simp]
      rw [Real.sqrt_div (by positivity), Real.sqrt_sq hx.le]
    rw [if_pos hx]
    constructor
    · rw [Real.cos_arctan, hS]
      field_simp
    · rw [Real.sin_arctan, hS]
      field_simp

theorem atan2_bounds (y x : ℝ) : -π < atan2 y x ∧ atan2 y x ≤ π := by
  have hpi := Real.pi_pos
  unfold atan2
  have h1 := Real.arctan_lt_pi_div_two (y / x)
  have h2 := Real.neg_pi_div_two_lt_arctan (y / x)
  split_ifs with hx hx' hy hy' hy''
  · constructor <;> [linarith; linarith]
  · -- x < 0, 0 ≤ y: arctan (y/x) ≤ 0 since y/x ≤ 0
    have hyx : y / x ≤ 0 := div_nonpos_of_nonneg_of_nonpos hy (le_of_lt hx')
    have : arctan (y / x) ≤ 0 := by
      have := Real.arctan_strictMono.monotone hyx
      simpa [Real.arctan_zero] using this
    constructor <;> linarith
  · -- x < 0, y < 0: arctan (y/x) > 0? y/x > 0
    push_neg at hy
    have hyx : 0 < y / x := div_pos_of_neg_of_neg hy hx'
    have : 0 < arctan (y / x) := by
      have := Real.arctan_strictMono hyx
      simpa [Real.arctan_zero] using this
    constructor <;> linarith
  · constructor <;> linarith
  · constructor <;> linarith
  · constructor <;> linarith

theorem atan2_bounds_of_nonneg (y x : ℝ) (hx : 0 ≤ x) :
    -(π / 2) ≤ atan2 y x ∧ atan2 y x ≤ π / 2 := by
  have hpi := Real.pi_pos
  unfold atan2
  have h1 := Real.arctan_lt_pi_div_two (y / x)
  have h2 := Real.neg_pi_div_two_lt_arctan (y / x)
  split_ifs with hx1 hx2 hy hy' hy''
  · constructor <;> linarith
  · exact absurd hx2 (not_lt.mpr hx)
  · exact absurd hx2 (not_lt.mpr hx)
  · constructor <;> linarith
  · constructor <;> linarith
  · constructor <;> linarith

theorem hPrime_cos_sin (a b : ℝ) :
    Real.sqrt (a ^ 2 + b ^ 2) * Real.cos (hPrime a b) = a ∧
    Real.sqrt (a ^ 2 + b ^ 2) * Real.sin (hPrime a b) = b := by
  unfold hPrime
  by_cases h0 : b = 0 ∧ a = 0
  · obtain ⟨hb, ha⟩ := h0
    subst hb; subst ha
    simp
  · rw [if_neg h0]
    by_cases ha : 0 ≤ a
    · rw [if_pos ha]
      exact atan2_cos_sin b a
    · rw [if_neg ha]
      refine ⟨?_, ?_⟩
      · rw [Real.cos_add_two_pi]
        exact (atan2_cos_sin b a).1
      · rw [Real.sin_add_two_pi]
        exact (atan2_cos_sin b a).2

theorem hPrime_bounds (a b : ℝ) : -(π / 2) ≤ hPrime a b ∧ hPrime a b ≤ 3 * π := by
  have hpi := Real.pi_pos
  unfold hPrime
  by_cases h0 : b = 0 ∧ a = 0
  · rw [if_pos h0]; constructor <;> linarith
  · rw [if_neg h0]
    by_cases ha : 0 ≤ a
    · rw [if_pos ha]
      have := atan2_bounds_of_nonneg b a ha
      constructor <;> linarith [this.1, this.2]
    · rw [if_neg ha]
      have := atan2_bounds b a
      constructor <;> linarith [this.1, this.2]

theorem dhAdj_eq_zero_of_sin (prod d : ℝ) (hprod : prod ≠ 0)
    (hd : Real.sin (dhAdj prod d / 2) = 0)
    (hlow : -(7 * π / 2) ≤ d) (hhigh : d ≤ 7 * π / 2) :
    d = 0 ∨ d = 2 * π ∨ d = -(2 * π) := by
  have hpi := Real.pi_pos
  unfold dhAdj at hd
  rw [if_neg hprod] at hd
  by_cases h1 : d > π
  · rw [if_pos h1] at hd
    obtain ⟨n, hn⟩ := Real.sin_eq_zero_iff.mp hd
    have hdeq : d = 2 * (n : ℝ) * π + 2 * π := by linarith
    have hnlow : (-1 : ℝ) < (n : ℝ) := by
      by_contra hcon
      push_neg at hcon
      nlinarith
    have hnhigh : ((n : ℝ)) < 1 := by
      by_contra hcon
      push_neg at hcon
      nlinarith
    have hn0 : n = 0 := by
      have hl : (-1 : ℤ) < n := by exact_mod_cast hnlow
      have hh : n < (1 : ℤ) := by exact_mod_cast hnhigh
      omega
    subst hn0
    right; left
    rw [hdeq]; push_cast; ring
  · rw [if_neg h1] at hd
    by_cases h2 : d < -π
    · rw [if_pos h2] at hd
      obtain ⟨n, hn⟩ := Real.sin_eq_zero_iff.mp hd
      have hdeq : d = 2 * (n : ℝ) * π - 2 * π := by linarith
      have hnlow : (-1 : ℝ) < (n : ℝ) := by
        by_contra hcon
        push_neg at hcon
        nlinarith
      have hnhigh : ((n : ℝ)) < 1 := by
        by_contra hcon
        push_neg at hcon
        nlinarith
      have hn0 : n = 0 := by
        have hl : (-1 : ℤ) < n := by exact_mod_cast hnlow
        have hh : n < (1 : ℤ) := by exact_mod_cast hnhigh
        omega
      subst hn0
      right; right
      rw [hdeq]; push_cast; ring
    · rw [if_neg h2] at hd
      push_neg at h1 h2
      obtain ⟨n, hn⟩ := Real.sin_eq_zero_iff.mp hd
      have hdeq : d = 2 * (n : ℝ) * π := by linarith
      have hnlow : (-1 : ℝ) < (n : ℝ) := by
        by_contra hcon
        push_neg at hcon
        nlinarith
      have hnhigh : ((n : ℝ)) < 1 := by
        by_contra hcon
        push_neg at hcon
        nlinarith
      have hn0 : n = 0 := by
        have hl : (-1 : ℤ) < n := by exact_mod_cast hnlow
        have hh : n < (1 : ℤ) := by exact_mod_cast hnhigh
        omega
      subst hn0
      left
      rw [hdeq]; push_cast; ring

end Cubotone

namespace Cubotone

open Real

/-- `CIEDE2000` is symmetric in its two colors. -/
theorem CIEDE2000core_comm (L1 a1 b1 L2 a2 b2 : ℝ) :
    CIEDE2000core L1 a1 b1 L2 a2 b2 = CIEDE2000core L2 a2 b2 L1 a1 b1 := by
  simp only [CIEDE2000core]
  set C1 := Real.sqrt (a1 ^ 2 + b1 ^ 2) with hC1
  set C2 := Real.sqrt (a2 ^ 2 + b2 ^ 2) with hC2
  rw [add_comm C2 C1]
  set G := 0.5 * (1 - Real.sqrt (((C1 + C2) / 2) ^ 7 / (((C1 + C2) / 2) ^ 7 + 6103515625))) with hG
  set a1' := (1 + G) * a1 with ha1
  set a2' := (1 + G) * a2 with ha2
  set C1' := Real.sqrt (a1' ^ 2 + b1 ^ 2) with hC1'
  set C2' := Real.sqrt (a2' ^ 2 + b2 ^ 2) with hC2'
  set h1' := hPrime a1' b1 with hh1
  set h2' := hPrime a2' b2 with hh2
  rw [mul_comm C2' C1', add_comm C2' C1', add_comm L2 L1]
  rw [show h1' - h2' = -(h2' - h1') from by ring]
  rw [dhAdj_neg, hAve_comm h2' h1']
  rw [neg_div, Real.sin_neg]
  congr 1
  ring

/-- `CIEDE2000` vanishes on identical colors. -/
theorem CIEDE2000core_self (L a b : ℝ) : CIEDE2000core L a b L a b = 0 := by
  simp only [CIEDE2000core, sub_self, dhAdj_zero, Real.sin_zero, mul_zero, zero_div,
    zero_pow, ne_eq, OfNat.ofNat_ne_zero, not_false_eq_true, add_zero, zero_add,
    mul_zero, Real.sqrt_zero]

/-- `CIEDE2000` is nonnegative. -/
theorem CIEDE2000core_nonneg (L1 a1 b1 L2 a2 b2 : ℝ) :
    0 ≤ CIEDE2000core L1 a1 b1 L2 a2 b2 := by
  simp only [CIEDE2000core]
  exact Real.sqrt_nonneg _

end Cubotone

namespace Cubotone
open Real

set_option maxHeartbeats 2000000 in
/-- If the CIEDE2000 distance vanishes, the two L*a*b* colors are
identical: the weighted quadratic form is positive definite
(`|R_T| < 2`), so the lightness, chroma and hue deltas all vanish, and
the hue angle together with the chroma determines `(a, b)`. -/
theorem CIEDE2000core_eq_zero_imp (L1 a1 b1 L2 a2 b2 : ℝ)
    (h : CIEDE2000core L1 a1 b1 L2 a2 b2 = 0) :
    L1 = L2 ∧ a1 = a2 ∧ b1 = b2 := by
  have hpi := Real.pi_pos
  simp only [CIEDE2000core] at h
  set C1 := Real.sqrt (a1 ^ 2 + b1 ^ 2) with hC1
  set C2 := Real.sqrt (a2 ^ 2 + b2 ^ 2) with hC2
  set G := 0.5 * (1 - Real.sqrt (((C1 + C2) / 2) ^ 7 / (((C1 + C2) / 2) ^ 7 + 6103515625))) with hG
  set a1' := (1 + G) * a1 with ha1
  set a2' := (1 + G) * a2 with ha2
  set C1' := Real.sqrt (a1' ^ 2 + b1 ^ 2) with hC1'
  set C2' := Real.sqrt (a2' ^ 2 + b2 ^ 2) with hC2'
  set h1' := hPrime a1' b1 with hh1
  set h2' := hPrime a2' b2 with hh2
  set hav := hAve h1' h2' (C1' * C2') with hhav
  set T := 1 - 0.17 * Real.cos (hav - π / 6) + 0.24 * Real.cos (2 * hav)
      + 0.32 * Real.cos (3 * hav + π / 30) - 0.2 * Real.cos (4 * hav - 63 * π / 180) with hT
  set dtheta := 30 * Real.exp (-(((degAdj (hav * 180 / π) - 275) / 25) ^ 2)) with hdtheta
  set RC := 2 * Real.sqrt (((C1' + C2') / 2) ^ 7 / (((C1' + C2') / 2) ^ 7 + 6103515625)) with hRC
  set SC := 1 + 0.045 * ((C1' + C2') / 2) with hSC
  set SH := 1 + 0.015 * ((C1' + C2') / 2) * T with hSH
  set SL := 1 + 0.015 * ((L1 + L2) / 2 - 50) ^ 2 / Real.sqrt (20 + ((L1 + L2) / 2 - 50) ^ 2) with hSL
  set RT := -Real.sin (dtheta * π / 90) * RC with hRT
  set dh := dhAdj (C1' * C2') (h2' - h1') with hdh
  set dH := 2 * Real.sqrt (C1' * C2') * Real.sin (dh / 2) with hdH
  set fL := (L2 - L1) / 1 / SL with hfL
  set fC := (C2' - C1') / 1 / SC with hfC
  set fH := dH / 1 / SH with hfH
  clear_value C1 C2 G a1' a2' C1' C2' h1' h2' hav T dtheta RC SC SH SL RT dh dH fL fC fH
  -- basic positivity facts
  have hC1'nn : 0 ≤ C1' := by rw [hC1']; exact Real.sqrt_nonneg _
  have hC2'nn : 0 ≤ C2' := by rw [hC2']; exact Real.sqrt_nonneg _
  have hC1nn : 0 ≤ C1 := by rw [hC1]; exact Real.sqrt_nonneg _
  have hC2nn : 0 ≤ C2 := by rw [hC2]; exact Real.sqrt_nonneg _
  have hT07 : (0.07 : ℝ) ≤ T := by
    have c1 := Real.neg_one_le_cos (hav - π / 6)
    have c1' := Real.cos_le_one (hav - π / 6)
    have c2 := Real.neg_one_le_cos (2 * hav)
    have c2' := Real.cos_le_one (2 * hav)
    have c3 := Real.neg_one_le_cos (3 * hav + π / 30)
    have c3' := Real.cos_le_one (3 * hav + π / 30)
    have c4 := Real.neg_one_le_cos (4 * hav - 63 * π / 180)
    have c4' := Real.cos_le_one (4 * hav - 63 * π / 180)
    rw [hT]
    linarith
  have hSL1 : (1 : ℝ) ≤ SL := by
    have hq : (0 : ℝ) ≤ ((L1 + L2) / 2 - 50) ^ 2 := sq_nonneg _
    have ht : (0 : ℝ) ≤ 0.015 * ((L1 + L2) / 2 - 50) ^ 2 / Real.sqrt (20 + ((L1 + L2) / 2 - 50) ^ 2) :=
      div_nonneg (mul_nonneg (by norm_num) (sq_nonneg _)) (Real.sqrt_nonneg _)
    rw [hSL]
    linarith
  have hSC1 : (1 : ℝ) ≤ SC := by
    rw [hSC]
    linarith
  have hSH1 : (1 : ℝ) ≤ SH := by
    have : (0 : ℝ) ≤ 0.015 * ((C1' + C2') / 2) * T := by
      apply mul_nonneg
      · linarith
      · linarith
    rw [hSH]
    linarith
  have hRCnn : 0 ≤ RC := by
    rw [hRC]
    positivity
  have hRC2 : RC < 2 := by
    have hu : (0 : ℝ) ≤ ((C1' + C2') / 2) ^ 7 := pow_nonneg (by linarith) 7
    have hlt : ((C1' + C2') / 2) ^ 7 / (((C1' + C2') / 2) ^ 7 + 6103515625) < 1 := by
      rw [div_lt_one (by linarith)]
      linarith
    have hs : Real.sqrt (((C1' + C2') / 2) ^ 7 / (((C1' + C2') / 2) ^ 7 + 6103515625)) < 1 := by
      have := Real.sqrt_lt_sqrt (div_nonneg hu (by linarith)) hlt
      rwa [Real.sqrt_one] at this
    rw [hRC]
    linarith
  have hRT2 : |RT| < 2 := by
    rw [hRT, abs_mul, abs_neg]
    have hsin : |Real.sin (dtheta * π / 90)| ≤ 1 :=
      abs_le.mpr ⟨Real.neg_one_le_sin _, Real.sin_le_one _⟩
    rw [abs_of_nonneg hRCnn]
    have hle : |Real.sin (dtheta * π / 90)| * RC ≤ 1 * RC :=
      mul_le_mul_of_nonneg_right hsin hRCnn
    linarith
  -- the discriminant decomposition forces all three components to vanish
  have hE : fL ^ 2 + fC ^ 2 + fH ^ 2 + RT * fC * fH ≤ 0 := Real.sqrt_eq_zero'.mp h
  have hRT4 : RT ^ 2 < 4 := by
    have h2 := sq_lt_sq' (abs_lt.mp hRT2).1 (abs_lt.mp hRT2).2
    norm_num at h2
    linarith
  have hkey : fL ^ 2 + (fC + RT * fH / 2) ^ 2 + (1 - RT ^ 2 / 4) * fH ^ 2 ≤ 0 := by
    rw [show fL ^ 2 + (fC + RT * fH / 2) ^ 2 + (1 - RT ^ 2 / 4) * fH ^ 2
        = fL ^ 2 + fC ^ 2 + fH ^ 2 + RT * fC * fH from by ring]
    exact hE
  have hfH0 : fH = 0 := by
    have h3 : (1 - RT ^ 2 / 4) * fH ^ 2 ≤ 0 := by
      linarith [hkey, sq_nonneg fL, sq_nonneg (fC + RT * fH / 2)]
    have h4 : 0 ≤ (1 - RT ^ 2 / 4) * fH ^ 2 :=
      mul_nonneg (by linarith) (sq_nonneg _)
    have h5 : (1 - RT ^ 2 / 4) * fH ^ 2 = 0 := le_antisymm h3 h4
    rcases mul_eq_zero.mp h5 with h6 | h6
    · linarith
    · exact pow_eq_zero_iff (by norm_num) |>.mp h6
  have hfC0 : fC = 0 := by
    rw [hfH0] at hkey
    simp only [mul_zero, zero_div, add_zero, ne_eq, OfNat.ofNat_ne_zero,
      not_false_eq_true, zero_pow] at hkey
    have h7 : fC ^ 2 ≤ 0 := by linarith [sq_nonneg fL]
    have h8 : fC ^ 2 = 0 := le_antisymm h7 (sq_nonneg fC)
    exact pow_eq_zero_iff (by norm_num) |>.mp h8
  have hfL0 : fL = 0 := by
    rw [hfH0] at hkey
    simp only [mul_zero, zero_div, add_zero, ne_eq, OfNat.ofNat_ne_zero,
      not_false_eq_true, zero_pow] at hkey
    have h7 : fL ^ 2 ≤ 0 := by linarith [sq_nonneg (fC + RT * 0 / 2), sq_nonneg fC]
    have h8 : fL ^ 2 = 0 := le_antisymm h7 (sq_nonneg fL)
    exact pow_eq_zero_iff (by norm_num) |>.mp h8
  -- extract the coordinate equalities
  have hL : L1 = L2 := by
    have := hfL0
    rw [hfL, div_one, div_eq_zero_iff] at this
    rcases this with h8 | h8
    · linarith
    · exfalso; rw [h8] at hSL1; linarith
  have hCeq : C1' = C2' := by
    have := hfC0
    rw [hfC, div_one, div_eq_zero_iff] at this
    rcases this with h8 | h8
    · linarith
    · exfalso; rw [h8] at hSC1; linarith
  have hdH0 : dH = 0 := by
    have := hfH0
    rw [hfH, div_one, div_eq_zero_iff] at this
    rcases this with h8 | h8
    · exact h8
    · exfalso; rw [h8] at hSH1; linarith
  -- aim: 1 + G > 0
  have hGnn : 0 ≤ G := by
    have hw : (0 : ℝ) ≤ ((C1 + C2) / 2) ^ 7 := by positivity
    have hle : ((C1 + C2) / 2) ^ 7 / (((C1 + C2) / 2) ^ 7 + 6103515625) ≤ 1 := by
      rw [div_le_one (by linarith)]
      linarith
    have hs : Real.sqrt (((C1 + C2) / 2) ^ 7 / (((C1 + C2) / 2) ^ 7 + 6103515625)) ≤ 1 := by
      have := Real.sqrt_le_sqrt hle
      rwa [Real.sqrt_one] at this
    rw [hG]
    linarith
  have hGne : (1 + G) ≠ 0 := by linarith
  -- case split on vanishing chroma
  by_cases hprod : C1' * C2' = 0
  · -- both chromas vanish: all four of a1', b1, a2', b2 are zero
    have hC1'0 : C1' = 0 := by
      rcases mul_eq_zero.mp hprod with h9 | h9
      · exact h9
      · rw [hCeq]; exact h9
    have hC2'0 : C2' = 0 := by rw [← hCeq]; exact hC1'0
    have hs1 : a1' ^ 2 + b1 ^ 2 ≤ 0 := by
      rw [hC1'] at hC1'0
      exact Real.sqrt_eq_zero'.mp hC1'0
    have hs2 : a2' ^ 2 + b2 ^ 2 ≤ 0 := by
      rw [hC2'] at hC2'0
      exact Real.sqrt_eq_zero'.mp hC2'0
    have ha1'0 : a1' = 0 := by
      have h9 : a1' ^ 2 = 0 :=
        le_antisymm (by linarith [sq_nonneg b1]) (sq_nonneg a1')
      exact pow_eq_zero_iff (by norm_num) |>.mp h9
    have hb10 : b1 = 0 := by
      have h9 : b1 ^ 2 = 0 :=
        le_antisymm (by linarith [sq_nonneg a1']) (sq_nonneg b1)
      exact pow_eq_zero_iff (by norm_num) |>.mp h9
    have ha2'0 : a2' = 0 := by
      have h9 : a2' ^ 2 = 0 :=
        le_antisymm (by linarith [sq_nonneg b2]) (sq_nonneg a2')
      exact pow_eq_zero_iff (by norm_num) |>.mp h9
    have hb20 : b2 = 0 := by
      have h9 : b2 ^ 2 = 0 :=
        le_antisymm (by linarith [sq_nonneg a2']) (sq_nonneg b2)
      exact pow_eq_zero_iff (by norm_num) |>.mp h9
    have ha10 : a1 = 0 := by
      rcases mul_eq_zero.mp (ha1 ▸ ha1'0) with h9 | h9
      · exact absurd h9 hGne
      · exact h9
    have ha20 : a2 = 0 := by
      rcases mul_eq_zero.mp (ha2 ▸ ha2'0) with h9 | h9
      · exact absurd h9 hGne
      · exact h9
    exact ⟨hL, by rw [ha10, ha20], by rw [hb10, hb20]⟩
  · -- nonzero chroma: the hue angles agree modulo 2π
    have hprodnn : 0 ≤ C1' * C2' := mul_nonneg hC1'nn hC2'nn
    have hsqrtpos : 0 < Real.sqrt (C1' * C2') := by
      apply Real.sqrt_pos.mpr
      exact lt_of_le_of_ne hprodnn (Ne.symm hprod)
    have hsin : Real.sin (dh / 2) = 0 := by
      have := hdH0
      rw [hdH] at this
      rcases mul_eq_zero.mp this with h9 | h9
      · rcases mul_eq_zero.mp h9 with h10 | h10
        · norm_num at h10
        · exact absurd h10 (ne_of_gt hsqrtpos)
      · exact h9
    have hb1' := hPrime_bounds a1' b1
    have hb2' := hPrime_bounds a2' b2
    rw [← hh1] at hb1'
    rw [← hh2] at hb2'
    have hdcase := dhAdj_eq_zero_of_sin (C1' * C2') (h2' - h1') hprod (by rw [← hdh]; exact hsin)
      (by linarith [hb1'.1, hb1'.2, hb2'.1, hb2'.2])
      (by linarith [hb1'.1, hb1'.2, hb2'.1, hb2'.2])
    -- cos and sin of the two hue angles agree
    have hcossin : Real.cos h1' = Real.cos h2' ∧ Real.sin h1' = Real.sin h2' := by
      rcases hdcase with h9 | h9 | h9
      · have : h2' = h1' := by linarith
        rw [this]; exact ⟨rfl, rfl⟩
      · have : h2' = h1' + 2 * π := by linarith
        rw [this, Real.cos_add_two_pi, Real.sin_add_two_pi]
        exact ⟨rfl, rfl⟩
      · have : h2' = h1' - 2 * π := by linarith
        rw [this, Real.cos_sub_two_pi, Real.sin_sub_two_pi]
        exact ⟨rfl, rfl⟩
    have hr1 := hPrime_cos_sin a1' b1
    have hr2 := hPrime_cos_sin a2' b2
    rw [← hC1', ← hh1] at hr1
    rw [← hC2', ← hh2] at hr2
    have ha' : a1' = a2' := by
      calc a1' = C1' * Real.cos h1' := hr1.1.symm
        _ = C2' * Real.cos h2' := by rw [hCeq, hcossin.1]
        _ = a2' := hr2.1
    have hb : b1 = b2 := by
      calc b1 = C1' * Real.sin h1' := hr1.2.symm
        _ = C2' * Real.sin h2' := by rw [hCeq, hcossin.2]
        _ = b2 := hr2.2
    have ha : a1 = a2 := by
      have : (1 + G) * a1 = (1 + G) * a2 := by rw [← ha1, ← ha2, ha']
      exact mul_left_cancel₀ hGne this
    exact ⟨hL, ha, hb⟩

end Cubotone

namespace Cubotone

/-- C7: `CIEDE2000` is symmetric, and it is zero if and only if the two
L*a*b* colors have identical coordinates. -/
theorem CIEDE2000_symm_and_zero_iff : ∀ Lab_1 Lab_2 : ℝ × ℝ × ℝ,
    CIEDE2000 Lab_1 Lab_2 = CIEDE2000 Lab_2 Lab_1 ∧
    (CIEDE2000 Lab_1 Lab_2 = 0 ↔ Lab_1 = Lab_2) := by
  intro Lab_1 Lab_2
  obtain ⟨L1, a1, b1⟩ := Lab_1
  obtain ⟨L2, a2, b2⟩ := Lab_2
  refine ⟨CIEDE2000core_comm L1 a1 b1 L2 a2 b2, ?_, ?_⟩
  · intro h
    obtain ⟨hL, ha, hb⟩ := CIEDE2000core_eq_zero_imp L1 a1 b1 L2 a2 b2 h
    rw [hL, ha, hb]
  · intro h
    rw [show ((L1, a1, b1) : ℝ × ℝ × ℝ) = (L2, a2, b2) from h]
    exact CIEDE2000core_self L2 a2 b2

end Cubotone

namespace Cubotone

/-! ### The BGR-distance classifier `cube_colors_interpreted` of `Cubotone.py` -/

/-- OpenCV's documented 8-bit BGR→HSV conversion (`cv2.cvtColor` with
`COLOR_BGR2HSV`, an external library call): `V = max`, `S = 255·(V−min)/V`,
`H` from the dominant channel on the half-degree scale `0..180`. -/
noncomputable def cvtColorBGR2HSV (bgr : ℝ × ℝ × ℝ) : Int × Int × Int :=
  let b := bgr.1
  let g := bgr.2.1
  let r := bgr.2.2
  let v := max r (max g b)
  let mn := min r (min g b)
  let diff := v - mn
  let s : ℝ := if v = 0 then 0 else 255 * diff / v
  let h : ℝ :=
    if diff = 0 then 0
    else if v = r then 30 * (g - b) / diff
    else if v = g then 60 + 30 * (b - r) / diff
    else 120 + 30 * (r - g) / diff
  let h := if h < 0 then h + 180 else h
  (round h, round s, round v)

/-- Python `round(x, 4)`.  (Python rounds ties to even; this model rounds
ties up — the two agree away from exact ties, and every value this
development evaluates is tie-free.) -/
noncomputable def round4 (x : ℝ) : ℝ := round (x * 10000) / 10000

/-- The sRGB gamma expansion step of `rgb2lab`. -/
noncomputable def gammaExpand (v : ℝ) : ℝ :=
  if v > 0.04045 then ((v + 0.055) / 1.055) ^ (2.4 : ℝ) else v / 12.92

/-- The XYZ→Lab transfer step of `rgb2lab` (the source writes the cube
root as `** 0.3333333333333333`). -/
noncomputable def labF (v : ℝ) : ℝ :=
  if v > 0.008856 then v ^ (0.3333333333333333 : ℝ) else 7.787 * v + 16 / 116

/-- `rgb2lab` of `Cubotone.py`: `[R, G, B]` (0–255) to CIE L*a*b* under
Observer 2°, Illuminant D65, with the source's `round(·, 4)` steps. -/
noncomputable def rgb2lab (inputColor : ℝ × ℝ × ℝ) : ℝ × ℝ × ℝ :=
  let R := gammaExpand (inputColor.1 / 255) * 100
  let G := gammaExpand (inputColor.2.1 / 255) * 100
  let B := gammaExpand (inputColor.2.2 / 255) * 100
  let X := round4 (R * 0.4124 + G * 0.3576 + B * 0.1805)
  let Y := round4 (R * 0.2126 + G * 0.7152 + B * 0.0722)
  let Z := round4 (R * 0.0193 + G * 0.1192 + B * 0.9505)
  let x := labF (X / 95.047)
  let y := labF (Y / 100.0)
  let z := labF (Z / 108.883)
  (round4 (116 * y - 16), round4 (500 * (x - y)), round4 (200 * (y - z)))

/-- The Lab value of a BGR triple, as the source computes it:
`rgb2lab([R, G, B])` after unpacking `B, G, R`. -/
noncomputable def labOfBGR (bgr : ℝ × ℝ × ℝ) : ℝ × ℝ × ℝ :=
  rgb2lab (bgr.2.2, bgr.2.1, bgr.1)

/-- The insertion order of the `cube_ref_colors` dict. -/
def colorList : List ColName :=
  [ColName.white, ColName.red, ColName.green, ColName.yellow, ColName.orange, ColName.blue]

/-- Center facelet of each reference color. -/
def centerIdx : ColName → Nat
  | ColName.white => 4
  | ColName.red => 13
  | ColName.green => 22
  | ColName.yellow => 31
  | ColName.orange => 40
  | ColName.blue => 49

/-- Python `min` over a list of reals (empty list yields junk `0`). -/
noncomputable def pyMinReal : List ℝ → ℝ
  | [] => 0
  | x :: xs => xs.foldl min x

/-- Python `min(iterable, key=f)`: the first element attaining the
minimum (strictly smaller values displace the current best). -/
noncomputable def pyArgminAux {α : Type} (f : α → ℝ) : α → List α → α
  | a, [] => a
  | a, y :: ys => if f y < f a then pyArgminAux f y ys else pyArgminAux f a ys

/-- Python `min(iterable, key=f)` over a list. -/
noncomputable def pyArgmin {α : Type} (f : α → ℝ) : List α → Option α
  | [] => none
  | x :: xs => some (pyArgminAux f x xs)

/-- Step 4 of `cube_colors_interpreted`: repeatedly pop the key whose
minimum color distance is smallest (`min(copy, key=...)` + `pop`). -/
noncomputable def selectionOrderAux (g : Nat → ℝ) : Nat → List Nat → List Nat
  | 0, _ => []
  | n + 1, l =>
    match pyArgmin g l with
    | none => []
    | some m => m :: selectionOrderAux g n (l.erase m)

/-- The facelet keys ordered by increasing minimum color distance. -/
noncomputable def selectionOrder (g : Nat → ℝ) (l : List Nat) : List Nat :=
  selectionOrderAux g l.length l

/-- The minimum CIEDE2000 distance from a measured Lab value to the six
reference Lab values (`min(color_distance_copy[key])`). -/
noncomputable def minDistToRefs (labRefs : ColName → ℝ × ℝ × ℝ) (m : ℝ × ℝ × ℝ) : ℝ :=
  pyMinReal (colorList.map (fun c => CIEDE2000 m (labRefs c)))

/-- State of the step-7 interpretation loop: colors assigned so far (in
processing order), and the adaptive BGR / Lab reference dicts. -/
structure ClassState where
  assign : List ColName
  refs : ColName → ℝ × ℝ × ℝ
  labRefs : ColName → ℝ × ℝ × ℝ

/-- One iteration of step 7 of `cube_colors_interpreted`: assign the
facelet to the reference color of minimum CIEDE2000 distance, then
replace that reference by the root-mean-square blend of the facelet and
the previous reference. -/
noncomputable def classifyStep (BGR_detected : Nat → ℝ × ℝ × ℝ)
    (st : ClassState) (key : Nat) : ClassState :=
  let B := (BGR_detected key).1
  let G := (BGR_detected key).2.1
  let R := (BGR_detected key).2.2
  let lab_meas := rgb2lab (R, G, B)
  let color := (pyArgmin (fun c => CIEDE2000 lab_meas (st.labRefs c)) colorList).getD
    ColName.white
  let B_avg := Real.sqrt ((B ^ 2 + (st.refs color).1 ^ 2) / 2)
  let G_avg := Real.sqrt ((G ^ 2 + (st.refs color).2.1 ^ 2) / 2)
  let R_avg := Real.sqrt ((R ^ 2 + (st.refs color).2.2 ^ 2) / 2)
  { assign := st.assign ++ [color]
    refs := fun c => if c = color then (B_avg, G_avg, R_avg) else st.refs c
    labRefs := fun c => if c = color then rgb2lab (R_avg, G_avg, B_avg) else st.labRefs c }

/-- `cube_colors_interpreted` of `Cubotone.py` on 54 detected BGR means:
returns `(cube_status, HSV_detected, cube_color_sequence, HSV_analysis)`.
`cube_status` maps each facelet (URFDLB order restored through the
`key_ordered_by_color_distance.index(i)` lookup of step 8) to its
interpreted color. -/
noncomputable def cube_colors_interpreted (BGR_detected : Nat → ℝ × ℝ × ℝ) :
    (Nat → ColName) × (Nat → Int × Int × Int) × List CCSVal × Bool :=
  let HSV_detected : Nat → Int × Int × Int := fun i => cvtColorBGR2HSV (BGR_detected i)
  let cube_ref_colors : ColName → ℝ × ℝ × ℝ := fun c => BGR_detected (centerIdx c)
  let cube_ref_colors_lab : ColName → ℝ × ℝ × ℝ := fun c => labOfBGR (cube_ref_colors c)
  let color_distance_min : Nat → ℝ := fun i =>
    minDistToRefs cube_ref_colors_lab (labOfBGR (BGR_detected i))
  let key_ordered_by_color_distance := selectionOrder color_distance_min (List.range 54)
  let final := key_ordered_by_color_distance.foldl (classifyStep BGR_detected)
    { assign := [], refs := cube_ref_colors, labRefs := cube_ref_colors_lab }
  let cube_status : Nat → ColName := fun i =>
    final.assign.getD (key_ordered_by_color_distance.indexOf i) ColName.white
  let VS_value : Nat → Int := fun i => (HSV_detected i).2.2 - (HSV_detected i).2.1
  let Hue : Nat → Int := fun i => (HSV_detected i).1
  let r := retrieve_cube_color_order VS_value Hue
  (cube_status, HSV_detected, r.1, r.2)

end Cubotone

namespace Cubotone
open Real

/-- CIEDE2000 vanishes on identical triples. -/
theorem CIEDE2000_self (p : ℝ × ℝ × ℝ) : CIEDE2000 p p = 0 := by
  obtain ⟨L, a, b⟩ := p
  exact CIEDE2000core_self L a b

theorem CIEDE2000_nonneg (p q : ℝ × ℝ × ℝ) : 0 ≤ CIEDE2000 p q := by
  obtain ⟨L1, a1, b1⟩ := p
  obtain ⟨L2, a2, b2⟩ := q
  exact CIEDE2000core_nonneg L1 a1 b1 L2 a2 b2

theorem CIEDE2000_pos_of_ne (p q : ℝ × ℝ × ℝ) (h : p ≠ q) : 0 < CIEDE2000 p q := by
  rcases lt_or_eq_of_le (CIEDE2000_nonneg p q) with hlt | heq
  · exact hlt
  · exfalso
    obtain ⟨L1, a1, b1⟩ := p
    obtain ⟨L2, a2, b2⟩ := q
    obtain ⟨hL, ha, hb⟩ := CIEDE2000core_eq_zero_imp L1 a1 b1 L2 a2 b2 heq.symm
    exact h (by rw [hL, ha, hb])

/-- A left fold with `min` is bounded by its seed. -/
theorem foldl_min_le_seed : ∀ (xs : List ℝ) (a : ℝ), xs.foldl min a ≤ a := by
  intro xs
  induction xs with
  | nil => intro a; exact le_refl a
  | cons y ys ih =>
    intro a
    show ys.foldl min (min a y) ≤ a
    exact le_trans (ih (min a y)) (min_le_left a y)

/-- A lower bound of the seed and all elements bounds the fold. -/
theorem le_foldl_min : ∀ (xs : List ℝ) (a c : ℝ), c ≤ a → (∀ x ∈ xs, c ≤ x) →
    c ≤ xs.foldl min a := by
  intro xs
  induction xs with
  | nil => intro a c hca _; exact hca
  | cons y ys ih =>
    intro a c hca hall
    have hy : c ≤ y := hall y (List.mem_cons_self y ys)
    show c ≤ ys.foldl min (min a y)
    exact ih (min a y) c (le_min hca hy) (fun x hx => hall x (List.mem_cons_of_mem y hx))

/-- A fold with `min` is bounded by every member. -/
theorem foldl_min_le_mem : ∀ (xs : List ℝ) (a x : ℝ), x ∈ xs → xs.foldl min a ≤ x := by
  intro xs
  induction xs with
  | nil => intro a x hx; exact absurd hx (List.not_mem_nil x)
  | cons y ys ih =>
    intro a x hx
    rcases List.mem_cons.mp hx with h | h
    · subst h
      show ys.foldl min (min a x) ≤ x
      exact le_trans (foldl_min_le_seed ys (min a x)) (min_le_right a x)
    · exact ih (min a y) x h

/-- Python `min` of a list containing `0` whose members are all
nonnegative is `0`. -/
theorem pyMinReal_eq_zero (l : List ℝ) (h0 : (0 : ℝ) ∈ l) (hnn : ∀ x ∈ l, 0 ≤ x) :
    pyMinReal l = 0 := by
  cases l with
  | nil => exact absurd h0 (List.not_mem_nil 0)
  | cons x xs =>
    have hle : xs.foldl min x ≤ 0 := by
      rcases List.mem_cons.mp h0 with h | h
      · rw [← h]
        exact foldl_min_le_seed xs 0
      · exact foldl_min_le_mem xs x 0 h
    have hge : (0 : ℝ) ≤ xs.foldl min x :=
      le_foldl_min xs x 0 (hnn x (List.mem_cons_self x xs))
        (fun y hy => hnn y (List.mem_cons_of_mem x hy))
    exact le_antisymm hle hge

/-- `min(iterable, key=f)` stays on its accumulator when no later element
is strictly smaller. -/
theorem pyArgminAux_eq_self {α : Type} (f : α → ℝ) : ∀ (l : List α) (a : α),
    (∀ y ∈ l, ¬ f y < f a) → pyArgminAux f a l = a := by
  intro l
  induction l with
  | nil => intro a _; rfl
  | cons y ys ih =>
    intro a h
    show (if f y < f a then pyArgminAux f y ys else pyArgminAux f a ys) = a
    rw [if_neg (h y (List.mem_cons_self y ys))]
    exact ih a (fun z hz => h z (List.mem_cons_of_mem y hz))

/-- `min(iterable, key=f)` returns the element of value zero when every
other candidate has positive value. -/
theorem pyArgminAux_zero {α : Type} (f : α → ℝ) (c0 : α) (hc0 : f c0 = 0) :
    ∀ (l : List α) (a : α),
    (∀ y, (y = a ∨ y ∈ l) → y ≠ c0 → 0 < f y) → (a = c0 ∨ c0 ∈ l) →
    pyArgminAux f a l = c0 := by
  intro l
  induction l with
  | nil =>
    intro a _ hmem
    rcases hmem with h | h
    · rw [h]
      rfl
    · exact absurd h (List.not_mem_nil c0)
  | cons y ys ih =>
    intro a hpos hmem
    show (if f y < f a then pyArgminAux f y ys else pyArgminAux f a ys) = c0
    by_cases hyc : y = c0
    · by_cases hac : a = c0
      · rw [if_neg (by rw [hyc, hac, hc0]; exact lt_irrefl 0)]
        exact ih a (fun z hz => hpos z (Or.imp id (List.mem_cons_of_mem y) hz)) (Or.inl hac)
      · have hfa : 0 < f a := hpos a (Or.inl rfl) hac
        rw [if_pos (by rw [hyc, hc0]; exact hfa)]
        exact ih y (fun z hz => hpos z (by
          rcases hz with h | h
          · rw [h]; exact Or.inr (List.mem_cons_self y ys)
          · exact Or.inr (List.mem_cons_of_mem y h))) (Or.inl hyc)
    · have hfy : 0 < f y := hpos y (Or.inr (List.mem_cons_self y ys)) hyc
      have hc0mem : a = c0 ∨ c0 ∈ ys := by
        rcases hmem with h | h
        · exact Or.inl h
        · rcases List.mem_cons.mp h with h' | h'
          · exact absurd h'.symm hyc
          · exact Or.inr h'
      by_cases hlt : f y < f a
      · rw [if_pos hlt]
        have hc0ys : c0 ∈ ys := by
          rcases hc0mem with h | h
          · exfalso
            rw [h, hc0] at hlt
            exact absurd hlt (not_lt.mpr (le_of_lt hfy))
          · exact h
        exact ih y (fun z hz => hpos z (by
          rcases hz with h | h
          · rw [h]; exact Or.inr (List.mem_cons_self y ys)
          · exact Or.inr (List.mem_cons_of_mem y h))) (Or.inr hc0ys)
      · rw [if_neg hlt]
        exact ih a (fun z hz => hpos z (Or.imp id (List.mem_cons_of_mem y) hz)) hc0mem

end Cubotone

namespace Cubotone
open Real

/-- Every color name is a reference color. -/
theorem mem_colorList : ∀ c : ColName, c ∈ colorList := by
  intro c
  cases c <;> decide

/-- When all keys have distance zero, the selection sort of step 4 keeps
the original (insertion) order: Python's `min` breaks ties in favour of
the earliest key. -/
theorem selectionOrderAux_id (g : Nat → ℝ) : ∀ l : List Nat, (∀ k ∈ l, g k = 0) →
    selectionOrderAux g l.length l = l := by
  intro l
  induction l with
  | nil => intro _; rfl
  | cons x xs ih =>
    intro h
    have hargs : pyArgmin g (x :: xs) = some x := by
      show some (pyArgminAux g x xs) = some x
      congr 1
      apply pyArgminAux_eq_self
      intro y hy
      rw [h y (List.mem_cons_of_mem x hy), h x (List.mem_cons_self x xs)]
      exact lt_irrefl 0
    rw [List.length_cons]
    rw [show selectionOrderAux g (xs.length + 1) (x :: xs) =
      (match pyArgmin g (x :: xs) with
      | none => []
      | some m => m :: selectionOrderAux g xs.length ((x :: xs).erase m)) from rfl]
    rw [hargs]
    show x :: selectionOrderAux g xs.length ((x :: xs).erase x) = x :: xs
    rw [List.erase_cons_head]
    rw [ih (fun k hk => h k (List.mem_cons_of_mem x hk))]

/-- RMS blend of a nonnegative value with itself is the value. -/
theorem sqrt_avg_self (x : ℝ) (hx : 0 ≤ x) : Real.sqrt ((x ^ 2 + x ^ 2) / 2) = x := by
  rw [show (x ^ 2 + x ^ 2) / 2 = x ^ 2 from by ring]
  exact Real.sqrt_sq hx

/-- One step of the interpretation loop, on an input whose facelets all
equal a reference centroid: the facelet is assigned its own color, and
the RMS update leaves both reference dicts unchanged. -/
theorem classifyStep_fixed (bgr : Nat → ℝ × ℝ × ℝ) (σ : Nat → ColName)
    (Hσ : ∀ i, i < 54 → bgr i = bgr (centerIdx (σ i)))
    (Hinj : ∀ c c', labOfBGR (bgr (centerIdx c)) = labOfBGR (bgr (centerIdx c')) → c = c')
    (Hnn : ∀ i, i < 54 → 0 ≤ (bgr i).1 ∧ 0 ≤ (bgr i).2.1 ∧ 0 ≤ (bgr i).2.2)
    (as : List ColName) (key : Nat) (hkey : key < 54) :
    classifyStep bgr ⟨as, fun c => bgr (centerIdx c), fun c => labOfBGR (bgr (centerIdx c))⟩ key
      = ⟨as ++ [σ key], fun c => bgr (centerIdx c), fun c => labOfBGR (bgr (centerIdx c))⟩ := by
  have hkeyc : bgr key = bgr (centerIdx (σ key)) := Hσ key hkey
  have hlab : rgb2lab ((bgr key).2.2, (bgr key).2.1, (bgr key).1)
      = labOfBGR (bgr (centerIdx (σ key))) := by
    rw [show rgb2lab ((bgr key).2.2, (bgr key).2.1, (bgr key).1) = labOfBGR (bgr key) from rfl,
      hkeyc]
  have hf0 : CIEDE2000 (labOfBGR (bgr (centerIdx (σ key)))) (labOfBGR (bgr (centerIdx (σ key)))) = 0 :=
    CIEDE2000_self _
  have hfpos : ∀ c : ColName, c ≠ σ key →
      0 < CIEDE2000 (labOfBGR (bgr (centerIdx (σ key)))) (labOfBGR (bgr (centerIdx c))) := by
    intro c hc
    apply CIEDE2000_pos_of_ne
    intro he
    exact hc (Hinj c (σ key) he.symm)
  have hargmin : pyArgmin (fun c => CIEDE2000 (rgb2lab ((bgr key).2.2, (bgr key).2.1, (bgr key).1))
      (labOfBGR (bgr (centerIdx c)))) colorList = some (σ key) := by
    show some (pyArgminAux _ ColName.white
      [ColName.red, ColName.green, ColName.yellow, ColName.orange, ColName.blue]) = some (σ key)
    congr 1
    apply pyArgminAux_zero
    · rw [hlab]
      exact hf0
    · intro y _ hy
      rw [hlab]
      exact hfpos y hy
    · cases hs : σ key <;> simp
  have hB : 0 ≤ (bgr key).1 := (Hnn key hkey).1
  have hG : 0 ≤ (bgr key).2.1 := (Hnn key hkey).2.1
  have hR : 0 ≤ (bgr key).2.2 := (Hnn key hkey).2.2
  show ClassState.mk _ _ _ = ClassState.mk _ _ _
  simp only [classifyStep, hargmin, Option.getD_some]
  have hrefval : bgr (centerIdx (σ key)) = bgr key := hkeyc.symm
  have hBa : Real.sqrt (((bgr key).1 ^ 2 + (bgr (centerIdx (σ key))).1 ^ 2) / 2) = (bgr key).1 := by
    rw [hrefval]
    exact sqrt_avg_self _ hB
  have hGa : Real.sqrt (((bgr key).2.1 ^ 2 + (bgr (centerIdx (σ key))).2.1 ^ 2) / 2) = (bgr key).2.1 := by
    rw [hrefval]
    exact sqrt_avg_self _ hG
  have hRa : Real.sqrt (((bgr key).2.2 ^ 2 + (bgr (centerIdx (σ key))).2.2 ^ 2) / 2) = (bgr key).2.2 := by
    rw [hrefval]
    exact sqrt_avg_self _ hR
  rw [ClassState.mk.injEq]
  refine ⟨rfl, ?_, ?_⟩
  · funext c
    by_cases hc : c = σ key
    · rw [if_pos hc, hBa, hGa, hRa, hc, hrefval]
    · rw [if_neg hc]
  · funext c
    by_cases hc : c = σ key
    · rw [if_pos hc, hBa, hGa, hRa, hc]
      rw [show rgb2lab ((bgr key).2.2, (bgr key).2.1, (bgr key).1) = labOfBGR (bgr key) from rfl]
      rw [hkeyc]
    · rw [if_neg hc]

/-- Folding the loop over any list of facelets (all matching centroids)
appends their colors and fixes the reference dicts. -/
theorem classify_foldl_fixed (bgr : Nat → ℝ × ℝ × ℝ) (σ : Nat → ColName)
    (Hσ : ∀ i, i < 54 → bgr i = bgr (centerIdx (σ i)))
    (Hinj : ∀ c c', labOfBGR (bgr (centerIdx c)) = labOfBGR (bgr (centerIdx c')) → c = c')
    (Hnn : ∀ i, i < 54 → 0 ≤ (bgr i).1 ∧ 0 ≤ (bgr i).2.1 ∧ 0 ≤ (bgr i).2.2) :
    ∀ (l : List Nat), (∀ k ∈ l, k < 54) → ∀ as : List ColName,
    l.foldl (classifyStep bgr)
      ⟨as, fun c => bgr (centerIdx c), fun c => labOfBGR (bgr (centerIdx c))⟩
      = ⟨as ++ l.map σ, fun c => bgr (centerIdx c), fun c => labOfBGR (bgr (centerIdx c))⟩ := by
  intro l
  induction l with
  | nil => intro _ as; simp
  | cons x xs ih =>
    intro hmem as
    rw [List.foldl_cons,
      classifyStep_fixed bgr σ Hσ Hinj Hnn as x (hmem x (List.mem_cons_self x xs)),
      ih (fun k hk => hmem k (List.mem_cons_of_mem x hk)) (as ++ [σ x]),
      List.map_cons, List.append_assoc]
    rfl

end Cubotone

namespace Cubotone
open Real

/-- Core correctness of `cube_colors_interpreted` on exact-centroid
inputs: with the six centroid Lab values pairwise distinct, every facelet
is assigned the color of its matching centroid (the identity selection
order and the invariance of the adaptive references under the RMS blend
combine). -/
theorem cubeStatus_exact (bgr : Nat → ℝ × ℝ × ℝ) (σ : Nat → ColName)
    (Hσ : ∀ i, i < 54 → bgr i = bgr (centerIdx (σ i)))
    (Hinj : ∀ c c', labOfBGR (bgr (centerIdx c)) = labOfBGR (bgr (centerIdx c')) → c = c')
    (Hnn : ∀ i, i < 54 → 0 ≤ (bgr i).1 ∧ 0 ≤ (bgr i).2.1 ∧ 0 ≤ (bgr i).2.2) :
    ∀ i, i < 54 → (cube_colors_interpreted bgr).1 i = σ i := by
  intro i hi
  have hall0 : ∀ k ∈ List.range 54,
      minDistToRefs (fun c => labOfBGR (bgr (centerIdx c))) (labOfBGR (bgr k)) = 0 := by
    intro k hk
    have hk54 : k < 54 := List.mem_range.mp hk
    unfold minDistToRefs
    apply pyMinReal_eq_zero
    · rw [List.mem_map]
      refine ⟨σ k, mem_colorList (σ k), ?_⟩
      rw [show labOfBGR (bgr k) = labOfBGR (bgr (centerIdx (σ k))) from
        congrArg _ (Hσ k hk54)]
      exact (CIEDE2000_self _).symm ▸ rfl
    · intro x hx
      rw [List.mem_map] at hx
      obtain ⟨c, _, hc⟩ := hx
      rw [← hc]
      exact CIEDE2000_nonneg _ _
  have horder : selectionOrder
      (fun j => minDistToRefs (fun c => labOfBGR (bgr (centerIdx c))) (labOfBGR (bgr j)))
      (List.range 54) = List.range 54 :=
    selectionOrderAux_id _ (List.range 54) hall0
  have hidx : ∀ j ∈ List.range 54, (List.range 54).indexOf j = j := by decide
  have hfold := classify_foldl_fixed bgr σ Hσ Hinj Hnn (List.range 54)
    (fun k hk => List.mem_range.mp hk) []
  simp only [cube_colors_interpreted]
  rw [horder, hfold, List.nil_append]
  rw [hidx i (List.mem_range.mpr hi)]
  have hlen : i < ((List.range 54).map σ).length := by
    rw [List.length_map, List.length_range]
    exact hi
  rw [List.getD_eq_getElem _ _ hlen]
  rw [List.getElem_map, List.getElem_range]

end Cubotone

namespace Cubotone
open Real

/-- Face colors of the URFDLB scan order (face `k` holds facelets
`9k..9k+8`; the face centers `4, 13, 22, 31, 40, 49` carry the reference
colors in the classifier's dict order). -/
def faceColor : Nat → ColName
  | 0 => ColName.white
  | 1 => ColName.red
  | 2 => ColName.green
  | 3 => ColName.yellow
  | 4 => ColName.orange
  | _ => ColName.blue

/-- The color of each facelet of a solved witness cube. -/
def witSigma : Nat → ColName := fun i => faceColor (i / 9)

/-- Six small BGR colors (channels ≤ 3, so every `rgb2lab` branch is the
linear one) with pairwise distinct Lab images. -/
noncomputable def witRef : ColName → ℝ × ℝ × ℝ
  | ColName.white => (3, 3, 3)
  | ColName.red => (0, 0, 3)
  | ColName.green => (0, 3, 0)
  | ColName.yellow => (0, 3, 3)
  | ColName.orange => (0, 1, 3)
  | ColName.blue => (3, 0, 0)

/-- A witness input: a solved cube colored with the six witness colors. -/
noncomputable def witBGR : Nat → ℝ × ℝ × ℝ := fun i => witRef (witSigma i)

theorem witSigma_center : ∀ c : ColName, witSigma (centerIdx c) = c := by
  intro c
  cases c <;> rfl

theorem labWit_white : (labOfBGR (witRef ColName.white)).1 = 8229 / 10000 := by
  norm_num [labOfBGR, witRef, rgb2lab, gammaExpand, labF, round4, round_eq]

theorem labWit_red : (labOfBGR (witRef ColName.red)).1 = 219 / 1250 := by
  norm_num [labOfBGR, witRef, rgb2lab, gammaExpand, labF, round4, round_eq]

theorem labWit_green : (labOfBGR (witRef ColName.green)).1 = 147 / 250 := by
  norm_num [labOfBGR, witRef, rgb2lab, gammaExpand, labF, round4, round_eq]

theorem labWit_yellow : (labOfBGR (witRef ColName.yellow)).1 = 7633 / 10000 := by
  norm_num [labOfBGR, witRef, rgb2lab, gammaExpand, labF, round4, round_eq]

theorem labWit_orange : (labOfBGR (witRef ColName.orange)).1 = 3713 / 10000 := by
  norm_num [labOfBGR, witRef, rgb2lab, gammaExpand, labF, round4, round_eq]

theorem labWit_blue : (labOfBGR (witRef ColName.blue)).1 = 149 / 2500 := by
  norm_num [labOfBGR, witRef, rgb2lab, gammaExpand, labF, round4, round_eq]

end Cubotone

namespace Cubotone
open Real

theorem witBGR_center : ∀ c : ColName, witBGR (centerIdx c) = witRef c := by
  intro c
  show witRef (witSigma (centerIdx c)) = witRef c
  rw [witSigma_center c]

theorem witHsigma : ∀ i, i < 54 → witBGR i = witBGR (centerIdx (witSigma i)) := by
  intro i _
  show witRef (witSigma i) = witBGR (centerIdx (witSigma i))
  rw [witBGR_center (witSigma i)]

theorem witHinj : ∀ c c' : ColName,
    labOfBGR (witBGR (centerIdx c)) = labOfBGR (witBGR (centerIdx c')) → c = c' := by
  intro c c' h
  rw [witBGR_center c, witBGR_center c'] at h
  have h1 : (labOfBGR (witRef c)).1 = (labOfBGR (witRef c')).1 := congrArg Prod.fst h
  cases c <;> cases c' <;>
    first
      | rfl
      | (exfalso
         simp only [labWit_white, labWit_red, labWit_green, labWit_yellow,
           labWit_orange, labWit_blue] at h1
         norm_num at h1)

theorem witHnn : ∀ i, i < 54 →
    0 ≤ (witBGR i).1 ∧ 0 ≤ (witBGR i).2.1 ∧ 0 ≤ (witBGR i).2.2 := by
  intro i _
  show 0 ≤ (witRef (witSigma i)).1 ∧ 0 ≤ (witRef (witSigma i)).2.1 ∧ 0 ≤ (witRef (witSigma i)).2.2
  cases witSigma i <;> norm_num [witRef]

/-- C1 (amended): on an input whose 54 facelets each exactly equal one of
the six reference centroids, with the centroids pairwise distinct in Lab,
`cube_colors_interpreted` assigns every facelet the color name of its
matching centroid.  (The original claim's `HSV_analysis = True` conjunct
does not hold; see the counterexample.) -/
theorem cube_colors_interpreted_matches_centroids
    (bgr : Nat → ℝ × ℝ × ℝ) (σ : Nat → ColName)
    (Hσ : ∀ i, i < 54 → bgr i = bgr (centerIdx (σ i)))
    (Hinj : ∀ c c', labOfBGR (bgr (centerIdx c)) = labOfBGR (bgr (centerIdx c')) → c = c')
    (Hnn : ∀ i, i < 54 → 0 ≤ (bgr i).1 ∧ 0 ≤ (bgr i).2.1 ∧ 0 ≤ (bgr i).2.2) :
    ∀ i, i < 54 → (cube_colors_interpreted bgr).1 i = σ i :=
  cubeStatus_exact bgr σ Hσ Hinj Hnn

/-- Witness for C1 at a solved cube in the six witness colors: facelet 13
(the red center's face) is classified red. -/
theorem cube_colors_interpreted_matches_centroids_witness :
    (cube_colors_interpreted witBGR).1 13 = ColName.red :=
  cube_colors_interpreted_matches_centroids witBGR witSigma witHsigma witHinj witHnn
    13 (by norm_num)

/-- 54 identical facelets: each trivially equals the white centroid, yet
the HSV side-ordering analysis fails. -/
noncomputable def allWhiteBGR : Nat → ℝ × ℝ × ℝ := fun _ => (255, 255, 255)

/-- Counterexample to C1 as stated: on the all-matching input whose
facelets all equal the centroid at facelet 4, `cube_colors_interpreted`
returns `HSV_analysis = false` (all six centers share hue 0, so the
red/orange filters never fire). -/
theorem all_matching_centroids_hsv_false :
    (cube_colors_interpreted allWhiteBGR).2.2.2 = false := by
  have hcvt : cvtColorBGR2HSV ((255 : ℝ), (255 : ℝ), (255 : ℝ)) = (0, 0, 255) := by
    norm_num [cvtColorBGR2HSV, round_eq]
  simp only [cube_colors_interpreted, allWhiteBGR, hcvt]
  norm_num
  decide

/-- C6: on an input with exactly nine facelets of each of six known
(pairwise Lab-distinct) centroid colors, the adaptive-reference loop
assigns at most nine facelets to any single color name. -/
theorem cube_colors_interpreted_count_bound
    (bgr : Nat → ℝ × ℝ × ℝ) (σ : Nat → ColName)
    (Hσ : ∀ i, i < 54 → bgr i = bgr (centerIdx (σ i)))
    (Hinj : ∀ c c', labOfBGR (bgr (centerIdx c)) = labOfBGR (bgr (centerIdx c')) → c = c')
    (Hnn : ∀ i, i < 54 → 0 ≤ (bgr i).1 ∧ 0 ≤ (bgr i).2.1 ∧ 0 ≤ (bgr i).2.2)
    (Hcount : ∀ c : ColName, ((List.range 54).filter (fun i => σ i = c)).length = 9) :
    ∀ c : ColName,
      ((List.range 54).filter (fun i => (cube_colors_interpreted bgr).1 i = c)).length ≤ 9 := by
  intro c
  have heq : (List.range 54).filter (fun i => (cube_colors_interpreted bgr).1 i = c)
      = (List.range 54).filter (fun i => σ i = c) := by
    apply List.filter_congr
    intro i hi
    rw [cubeStatus_exact bgr σ Hσ Hinj Hnn i (List.mem_range.mp hi)]
  rw [heq, Hcount c]

/-- Witness for C6 at the solved witness cube: at most nine facelets are
classified red. -/
theorem cube_colors_interpreted_count_bound_witness :
    ((List.range 54).filter
      (fun i => (cube_colors_interpreted witBGR).1 i = ColName.red)).length ≤ 9 :=
  cube_colors_interpreted_count_bound witBGR witSigma witHsigma witHinj witHnn
    (by intro c; cases c <;> decide) ColName.red

end Cubotone
